import Mathlib

/-!
Verification of `src/brevitas/graph/generator.py` (class `ModuleGenerator`).

The generator walks a linear trace of operations recorded from a neural
network, decides per trace element whether to preserve a module as-is or to
synthesize a primitive-call instruction, deduplicates module invocations,
rebuilds a module hierarchy from name paths, and finally resolves free
references into constants and parameters, substituting them into the
instruction arguments.

The collaborating modules of the repository (the tracer's `Trace`/`TraceElem`,
`Index`, `Instruction`, `CodegenModule`, and `utils.flatten` /
`utils.module_class_name`) are not part of the source tree; their data shapes
and behavior are modelled from the specification, as indicated on each
definition.  Everything inside `ModuleGenerator` is translated directly from
the Python source.
-/

namespace BrevitasGen

/-- A Python runtime object as it appears in argument structures and value
maps of the generator.  `idx` models an `Index` object (an opaque reference
handle produced by the tracer); `pyNone` models Python's `None`; `param`
models a `torch.nn.Parameter` (a learnable tensor, carrying an object
identity and its scalar payload); `tensor` models a scalar `torch.Tensor`
(object identity and payload); `num` a plain Python number; `obj` any other
opaque object identified by an id.  Identity (`is`) coincides with
structural equality here because every constructor carries the data that
distinguishes distinct runtime objects. -/
inductive PyVal where
  | idx : Nat → PyVal
  | pyNone : PyVal
  | param : Nat → Int → PyVal
  | tensor : Nat → Int → PyVal
  | num : Int → PyVal
  | obj : Nat → PyVal
deriving DecidableEq, Repr

/-- `isinstance(v, Index)` for an argument leaf. -/
def PyVal.isIndex : PyVal → Bool
  | .idx _ => true
  | _ => false

/-- `isinstance(v, Parameter)`. -/
def PyVal.isParameter : PyVal → Bool
  | .param _ _ => true
  | _ => false

/-- `isinstance(v, Tensor)`.  `Parameter` is a subclass of `Tensor` in
torch, so both constructors qualify. -/
def PyVal.isTensor : PyVal → Bool
  | .tensor _ _ => true
  | .param _ _ => true
  | _ => false

/-- `v.item()` on a scalar tensor-like value: extracts the plain number.
On non-tensor values this is never called by the source. -/
def PyVal.item : PyVal → PyVal
  | .tensor _ x => .num x
  | .param _ x => .num x
  | v => v

/-- A `torch.nn.Module` instance as the generator sees it: an object
identity `ref`, a fully qualified class name (modelled as a list of atoms,
matching `utils.module_class_name`), and the set of classes it is an
instance of (its class and superclasses), for `isinstance` checks. -/
structure Module where
  ref : Nat
  class_name : List Nat
  inst_of : List Nat
deriving DecidableEq, Repr

/-- Modelled from the spec: `utils.module_class_name` returns the module's
fully qualified class name (the `utils` module is not in the source tree). -/
def module_class_name (m : Module) : List Nat :=
  m.class_name

/-- One entry of the allowlist / blocklist: either a qualified-name prefix
string or a concrete class (`isinstance(gm, str)` vs `isclass(gm)` in the
source). -/
inductive GenListEntry where
  | name_pre : List Nat → GenListEntry
  | cls : Nat → GenListEntry
deriving DecidableEq, Repr

/-- Whether a module matches one allow/block-list entry: name-prefix match
for string entries, `isinstance` for class entries (source lines 46-47). -/
def matches_entry (m : Module) (e : GenListEntry) : Bool :=
  match e with
  | .name_pre p => p.isPrefixOf (module_class_name m)
  | .cls c => m.inst_of.contains c

/-- The configuration of a `ModuleGenerator`: the two lists supplied at
construction time (source lines 19-24). -/
structure ModuleGenerator where
  gen_module_allowlist : List GenListEntry
  gen_module_blocklist : List GenListEntry
deriving Repr

/-- `ModuleGenerator._is_module_in_gen_list` (source lines 43-48): OR over
all entries. -/
def is_module_in_gen_list (module : Module) (gen_list : List GenListEntry) : Bool :=
  gen_list.foldl (fun output gm => output || matches_entry module gm) false

/-- `ModuleGenerator._is_module_in_gen_blocklist` (source lines 50-51). -/
def is_module_in_gen_blocklist (g : ModuleGenerator) (module : Module) : Bool :=
  is_module_in_gen_list module g.gen_module_blocklist

/-- `ModuleGenerator._is_module_in_gen_allowlist` (source lines 53-54). -/
def is_module_in_gen_allowlist (g : ModuleGenerator) (module : Module) : Bool :=
  is_module_in_gen_list module g.gen_module_allowlist

/-- Supported call kinds (`FnType` of the tracer, not in the source tree).
Modelled from the spec: "call kind (one of: module-call,
plain-function-call, tensor-method-call, tensor-attribute-access,
script-module-call)". -/
inductive FnType where
  | MODULE
  | FUNCTION
  | METHOD
  | ATTRIBUTE
  | SCRIPTMODULE
deriving DecidableEq, Repr

/-- A positional or keyword argument structure of an instruction: nested
Python lists, tuples and dicts over leaf objects, exactly the shapes
`_solve_consts_params` recurses over (source lines 171-186). -/
inductive Arg where
  | leaf : PyVal → Arg
  | listA : List Arg → Arg
  | tupleA : List Arg → Arg
  | dictA : List (Nat × Arg) → Arg

/-- Modelled from the spec: one element of the trace, produced by the
external tracer (`tracer/trace.py` is not in the source tree).  Fields are
the ones `ModuleGenerator` reads: the enclosing-module context chain
(outermost first, innermost last), the enclosing module's input value list
and output value, the dotted name path (`prefix_list`, atoms) and the raw
path string (`prefix_str`, modelled as atoms as well), the called entity
`fn`, its name when it is a module called through a function wrapper, its
call kind, its positional/keyword arguments and output as references. -/
structure TraceElem where
  module_context_list : List Module
  module_input_list : List PyVal
  module_output : PyVal
  prefix_list : List Nat
  prefix_str : List Nat
  fn : Module
  module_fn_name : Nat
  fn_type : FnType
  fn_args_index : List Arg
  fn_kwargs_index : List (Nat × Arg)
  fn_out_index : PyVal

/-- Modelled from the spec: the trace, "ordered sequence of TraceElements
plus a value-index (mapping a reference to its underlying runtime value)
and the set of references that are top-level model inputs/outputs".
`index_map` is modelled as a total map on leaf objects; `index_from_val`
maps a runtime value to its reference handle (an `Index`), or to Python
`None` when the value has no recorded reference. -/
structure Trace where
  trace_elem_list : List TraceElem
  index_map : PyVal → PyVal
  index_from_val : PyVal → PyVal
  model_input_index_list : List PyVal
  model_output_index_list : List PyVal

/-- Modelled from the spec: one scheduled operation (`Instruction` of
`graph/module.py`, not in the source tree): output reference, callable,
call kind, positional arguments, keyword arguments, and the name path for
diagnostics. -/
structure Instruction where
  output_index : PyVal
  fn : Module
  fn_type : FnType
  input_args_list : List Arg
  input_kwargs_dict : List (Nat × Arg)
  prefix_str : List Nat

/-- A recorded generated-module context: the tuple
`(module, trace_elem.module_input_list, trace_elem.module_output)` appended
to `_generated_allowlist_modules` (source lines 129-130, 133-134). -/
abbrev Ctx : Type := Module × List PyVal × PyVal

/-- `ModuleGenerator._parent_in_gen_allowlist` (source lines 28-41): scan
`reversed(module_context_list[:-1])` (innermost-but-one first, outermost
last) and overwrite `output` with every context module that matches an
allowlist entry and is not in the blocklist. -/
def parent_in_gen_allowlist (g : ModuleGenerator) (trace_elem : TraceElem) : Option Module :=
  let context := (trace_elem.module_context_list.dropLast).reverse
  context.foldl
    (fun output c =>
      g.gen_module_allowlist.foldl
        (fun output gma =>
          if matches_entry c gma && !(is_module_in_gen_blocklist g c) then some c else output)
        output)
    none

/-- Python's `zip`-based input comparison in `_is_module_already_gen`
(source line 63): `all([i is mi for i, mi in zip(i_list, inputs)])`.
Note `zip` truncates to the shorter list and `all` of an empty list is
`True`. -/
def zip_all_is : List PyVal → List PyVal → Bool
  | i :: is', mi :: mis => if i = mi then zip_all_is is' mis else false
  | _, _ => true

/-- A Python object reference as compared by `is` in the defensive parent
check of `_is_module_already_gen` (source lines 67-69): there, a `Module`
from the context list is compared against a whole recorded context tuple.
Distinct constructors model distinct object types, which are never the same
object. -/
inductive PyObj where
  | moduleObj : Module → PyObj
  | ctxObj : Ctx → PyObj
deriving DecidableEq

/-- Python `is` between the two kinds of objects the check can see. -/
def py_is (a b : PyObj) : Bool := a = b

/-- `ModuleGenerator._is_module_already_gen` (source lines 56-70):
`st` is the current `_generated_allowlist_modules` list.  The first loop
looks for a recorded triple with the same module, same (zip-truncated)
input list and same output; the second loop compares each context module
against whole recorded tuples with `is`. -/
def is_module_already_gen (st : List Ctx) (module : Module) (trace_elem : TraceElem) : Bool :=
  let first := st.foldl
    (fun acc mio =>
      acc || ((mio.1.ref = module.ref : Bool) &&
              zip_all_is mio.2.1 trace_elem.module_input_list &&
              (mio.2.2 = trace_elem.module_output : Bool)))
    false
  let second := trace_elem.module_context_list.foldl
    (fun acc c =>
      acc || st.foldl (fun acc2 m => acc2 || py_is (.moduleObj c) (.ctxObj m)) false)
    first
  second

/-- The simple duplicate check of only the first loop of
`_is_module_already_gen`: some recorded triple with identical module,
zip-compared input references, and identical output reference. -/
def is_module_already_gen_simple (st : List Ctx) (module : Module) (trace_elem : TraceElem) : Bool :=
  st.foldl
    (fun acc mio =>
      acc || ((mio.1.ref = module.ref : Bool) &&
              zip_all_is mio.2.1 trace_elem.module_input_list &&
              (mio.2.2 = trace_elem.module_output : Bool)))
    false

/-- The generated module tree: a module object together with its named
submodules (`Module._modules`, an insertion-ordered name-to-submodule
map).  Preserved modules are attached as leaves with empty children. -/
inductive ModTree where
  | node : Module → List (Nat × ModTree) → ModTree

/-- The children map of a tree node. -/
def ModTree.sub : ModTree → List (Nat × ModTree)
  | .node _ cs => cs

/-- First-match lookup in a children map (Python dict access). -/
def lookup_child : List (Nat × ModTree) → Nat → Option ModTree
  | [], _ => none
  | (k, v) :: rest, n => if k = n then some v else lookup_child rest n

/-- `add_module(name, module)` on the children map: replace the first
binding of `name` if present, otherwise append a new binding (Python dict
update semantics, insertion order preserved). -/
def set_child : List (Nat × ModTree) → Nat → ModTree → List (Nat × ModTree)
  | [], n, c => [(n, c)]
  | (k, v) :: rest, n, c => if k = n then (n, c) :: rest else (k, v) :: set_child rest n c

/-- The fresh placeholder container `Module()` created for missing
intermediate path segments (source line 79). -/
def placeholder_module : Module := ⟨0, [], []⟩

/-- `ModuleGenerator._add_module` (source lines 72-82): walk `prefix_list`
one segment at a time from `model`; descend into an existing submodule of
that name, otherwise create and attach an empty container and descend into
it; finally attach `module` under `module_name`.  (With atomic path
segments, the source's `named_modules()` membership test is equivalent to a
direct-children test, since deeper modules have dotted names.) -/
def add_module (module : ModTree) (module_name : Nat) :
    List Nat → ModTree → ModTree
  | [], .node r cs => .node r (set_child cs module_name module)
  | p :: ps, .node r cs =>
    match lookup_child cs p with
    | some sub => .node r (set_child cs p (add_module module module_name ps sub))
    | none => .node r (set_child cs p (add_module module module_name ps (.node placeholder_module [])))

/-- Errors that abort `gen_model`: Python `IndexError` from `[-1]` on an
empty list, `AssertionError` from `assert inst is not None`, and
`RuntimeError("Something went wrong")`. -/
inductive GenError where
  | index_error
  | assert_error
  | runtime_error
deriving DecidableEq, Repr

/-- `ModuleGenerator._module_instruction` (source lines 84-92): attach the
module into the output tree at its name path, then build a module-call
instruction whose positional arguments are the index-resolved
`module_input_list` of the trace element and whose output is the
index-resolved `module_output` of the trace element.  `prefix_list[-1]` on
an empty list is an `IndexError`. -/
def module_instruction (module : Module) (trace_elem : TraceElem) (trace : Trace)
    (output_model : ModTree) : Except GenError (Instruction × ModTree) :=
  match trace_elem.prefix_list.getLast? with
  | none => .error .index_error
  | some module_name =>
    let pl := trace_elem.prefix_list.dropLast
    let model' := add_module (.node module []) module_name pl output_model
    let iil := trace_elem.module_input_list.map (fun i => Arg.leaf (trace.index_from_val i))
    let module_output_index := trace.index_from_val trace_elem.module_output
    .ok (⟨module_output_index, module, .MODULE, iil, [], trace_elem.prefix_str⟩, model')

/-- `ModuleGenerator._torch_fn_instruction` (source lines 100-106): pass
the trace element's call kind, arguments and output through unchanged. -/
def torch_fn_instruction (trace_elem : TraceElem) : Instruction :=
  ⟨trace_elem.fn_out_index, trace_elem.fn, trace_elem.fn_type,
    trace_elem.fn_args_index, trace_elem.fn_kwargs_index, trace_elem.prefix_str⟩

/-- `ModuleGenerator._tensor_fn_instruction` (source lines 108-114):
identical to the function case (the `trace` parameter is unused in the
source too). -/
def tensor_fn_instruction (trace_elem : TraceElem) (_trace : Trace) : Instruction :=
  ⟨trace_elem.fn_out_index, trace_elem.fn, trace_elem.fn_type,
    trace_elem.fn_args_index, trace_elem.fn_kwargs_index, trace_elem.prefix_str⟩

/-- `ModuleGenerator._module_fn_instruction` (source lines 94-98): the
called entity is itself a module invoked through a function wrapper; attach
it into the tree under its own name and synthesize a plain-call
instruction. -/
def module_fn_instruction (trace_elem : TraceElem) (output_model : ModTree) :
    Instruction × ModTree :=
  let module := trace_elem.fn
  let model' := add_module (.node module []) trace_elem.module_fn_name
    trace_elem.prefix_list output_model
  (torch_fn_instruction trace_elem, model')

/-- The body of the `for trace_elem in trace.trace_elem_list` loop of
`ModuleGenerator._gen_schedule` (source lines 118-150) for one element:
given the current `_generated_allowlist_modules` state and output tree,
produce the new state, the new tree, and `none` (the `continue` branch) or
the appended instruction.  `module_context_list[-1]` on an empty context is
an `IndexError`; the final `assert inst is not None` is an
`AssertionError`. -/
def gen_schedule_step (g : ModuleGenerator) (st : List Ctx) (trace : Trace)
    (tree : ModTree) (trace_elem : TraceElem) :
    Except GenError (List Ctx × ModTree × Option Instruction) :=
  match trace_elem.module_context_list.getLast? with
  | none => .error .index_error
  | some module =>
    let parent_in_allowlist := parent_in_gen_allowlist g trace_elem
    let in_allowlist := is_module_in_gen_allowlist g module &&
      !(is_module_in_gen_blocklist g module)
    let m_already_gen := is_module_already_gen st module trace_elem
    if parent_in_allowlist.isSome && !m_already_gen then
      let ctx : Ctx := (module, trace_elem.module_input_list, trace_elem.module_output)
      let st' := st ++ [ctx]
      match module_instruction (parent_in_allowlist.getD module) trace_elem trace tree with
      | .error e => .error e
      | .ok (inst, tree') => .ok (st', tree', some inst)
    else if in_allowlist && !m_already_gen then
      let ctx : Ctx := (module, trace_elem.module_input_list, trace_elem.module_output)
      let st' := st ++ [ctx]
      match module_instruction module trace_elem trace tree with
      | .error e => .error e
      | .ok (inst, tree') => .ok (st', tree', some inst)
    else if in_allowlist && m_already_gen then
      .ok (st, tree, none)
    else
      let inst_opt : Option (Except GenError (Instruction × ModTree)) :=
        if trace_elem.fn_type = .MODULE then
          some (.ok (module_fn_instruction trace_elem tree))
        else if trace_elem.fn_type = .FUNCTION then
          some (.ok (torch_fn_instruction trace_elem, tree))
        else if trace_elem.fn_type = .METHOD then
          some (.ok (tensor_fn_instruction trace_elem trace, tree))
        else if trace_elem.fn_type = .ATTRIBUTE then
          some (.ok (tensor_fn_instruction trace_elem trace, tree))
        else if trace_elem.fn_type = .SCRIPTMODULE then
          some (module_instruction trace_elem.fn trace_elem trace tree)
        else
          none
      match inst_opt with
      | none => .error .assert_error
      | some (.error e) => .error e
      | some (.ok (inst, tree')) => .ok (st, tree', some inst)

/-- The loop of `ModuleGenerator._gen_schedule` over a list of trace
elements, threading the tracker state and the output tree and
concatenating the appended instructions. -/
def gen_schedule_aux (g : ModuleGenerator) (trace : Trace) :
    List TraceElem → List Ctx → ModTree →
    Except GenError (List Ctx × ModTree × List Instruction)
  | [], st, tree => .ok (st, tree, [])
  | e :: rest, st, tree =>
    match gen_schedule_step g st trace tree e with
    | .error err => .error err
    | .ok (st', tree', oi) =>
      match gen_schedule_aux g trace rest st' tree' with
      | .error err => .error err
      | .ok (st'', tree'', sched) => .ok (st'', tree'', oi.toList ++ sched)

/-- `ModuleGenerator._gen_schedule` (source lines 116-151). -/
def gen_schedule (g : ModuleGenerator) (st : List Ctx) (trace : Trace) (tree : ModTree) :
    Except GenError (List Ctx × ModTree × List Instruction) :=
  gen_schedule_aux g trace trace.trace_elem_list st tree

mutual

/-- Modelled from the spec: `utils.flatten` (the `utils` module is not in
the source tree), "the flattened set of all positional+keyword input
references": collect the leaf objects of a nested argument structure. -/
def flatten_arg : Arg → List PyVal
  | .leaf v => [v]
  | .listA as' => flatten_args as'
  | .tupleA as' => flatten_args as'
  | .dictA kvs => flatten_kvs kvs

/-- `flatten` over a Python list of argument structures. -/
def flatten_args : List Arg → List PyVal
  | [] => []
  | a :: as' => flatten_arg a ++ flatten_args as'

/-- `flatten` over the values of a keyword-argument dict. -/
def flatten_kvs : List (Nat × Arg) → List PyVal
  | [] => []
  | (_, a) :: kvs => flatten_arg a ++ flatten_kvs kvs

end

/-- Python list membership (`in`, using `==`). -/
def contains_val : List PyVal → PyVal → Bool
  | [], _ => false
  | x :: xs, v => if x = v then true else contains_val xs v

/-- First-match association lookup (Python dict access by key). -/
def assoc_lookup : List (PyVal × PyVal) → PyVal → Option PyVal
  | [], _ => none
  | (k, w) :: rest, v => if k = v then some w else assoc_lookup rest v

/-- The flattened list of all positional and keyword argument leaves of the
whole schedule: `input_index_list` of `_gen_constants_parameters` (source
lines 156-157). -/
def input_index_list (schedule : List Instruction) : List PyVal :=
  flatten_args ((schedule.map (fun inst => inst.input_args_list)).flatten) ++
    flatten_kvs ((schedule.map (fun inst => inst.input_kwargs_dict)).flatten)

/-- The candidate free references of `_gen_constants_parameters` (source
lines 159-161): consumed leaves that are neither top-level model inputs nor
outputs of any instruction. -/
def const_index_list (schedule : List Instruction) (trace : Trace) : List PyVal :=
  let output_index_list := schedule.map (fun inst => inst.output_index)
  ((input_index_list schedule).filter
      (fun i => !(contains_val trace.model_input_index_list i))).filter
    (fun i => !(contains_val output_index_list i))

/-- `ModuleGenerator._gen_constants_parameters` (source lines 154-169):
split the candidate free references into `consts` (the reference itself is
not a `Parameter` object) and `params` (it is), look each up in the
trace's index map, materialize scalar tensors in `consts` via `.item()`,
and raise `RuntimeError` when `None` is among the keys of `consts`. -/
def gen_constants_parameters (schedule : List Instruction) (trace : Trace) :
    Except GenError (List (PyVal × PyVal) × List (PyVal × PyVal)) :=
  let cil := const_index_list schedule trace
  let consts := (cil.filter (fun c => !c.isParameter)).map (fun c => (c, trace.index_map c))
  let params := (cil.filter (fun c => c.isParameter)).map (fun c => (c, trace.index_map c))
  let consts := consts.map (fun kv => (kv.1, if kv.2.isTensor then kv.2.item else kv.2))
  if contains_val (consts.map (fun kv => kv.1)) .pyNone then .error .runtime_error
  else .ok (consts, params)

mutual

/-- `ModuleGenerator._solve_consts_params` (source lines 171-186):
reconstruct the same container shape; an `Index` leaf found in `consts` or
`params` is replaced by its resolved value, every other leaf is returned
unchanged. -/
def solve_consts_params (consts params : List (PyVal × PyVal)) : Arg → Arg
  | .listA as' => .listA (solve_list consts params as')
  | .tupleA as' => .tupleA (solve_list consts params as')
  | .dictA kvs => .dictA (solve_kvs consts params kvs)
  | .leaf v =>
    if v.isIndex then
      match assoc_lookup consts v with
      | some w => .leaf w
      | none =>
        match assoc_lookup params v with
        | some w => .leaf w
        | none => .leaf v
    else
      .leaf v

/-- `_solve_consts_params` on a Python list. -/
def solve_list (consts params : List (PyVal × PyVal)) : List Arg → List Arg
  | [] => []
  | a :: as' => solve_consts_params consts params a :: solve_list consts params as'

/-- `_solve_consts_params` on a keyword dict (values only). -/
def solve_kvs (consts params : List (PyVal × PyVal)) : List (Nat × Arg) → List (Nat × Arg)
  | [] => []
  | (k, a) :: kvs => (k, solve_consts_params consts params a) :: solve_kvs consts params kvs

end

/-- `ModuleGenerator._apply_consts_params` (source lines 188-191): rewrite
every instruction's positional and keyword argument structures. -/
def apply_consts_params (schedule : List Instruction)
    (consts params : List (PyVal × PyVal)) : List Instruction :=
  schedule.map (fun inst =>
    { inst with
      input_args_list := solve_list consts params inst.input_args_list
      input_kwargs_dict := solve_kvs consts params inst.input_kwargs_dict })

/-- Modelled from the spec: the generated-model artifact (`CodegenModule`
of `graph/module.py`, not in the source tree): the populated module tree,
the final instruction list, and the top-level input and output reference
lists. -/
structure CodegenModule where
  tree : ModTree
  schedule : List Instruction
  input_index_list : List PyVal
  output_index_list : List PyVal

/-- `ModuleGenerator.gen_model` (source lines 193-201).  The incoming `st`
is the instance's `_generated_allowlist_modules` list, which `gen_model`
does not reset (it is initialized once in `__init__`); a freshly
constructed generator has `st = []`.  Returns the updated instance state
together with the artifact. -/
def gen_model (g : ModuleGenerator) (st : List Ctx) (trace : Trace) :
    Except GenError (List Ctx × CodegenModule) :=
  let output_model : ModTree := .node ⟨0, [], []⟩ []
  match gen_schedule g st trace output_model with
  | .error e => .error e
  | .ok (st', tree, schedule) =>
    match gen_constants_parameters schedule trace with
    | .error e => .error e
    | .ok (consts, params) =>
      let schedule' := apply_consts_params schedule consts params
      .ok (st', ⟨tree, schedule', trace.model_input_index_list, trace.model_output_index_list⟩)

/-- All leaf objects consumed by one instruction as positional or keyword
arguments. -/
def inst_consumed (inst : Instruction) : List PyVal :=
  flatten_args inst.input_args_list ++ flatten_kvs inst.input_kwargs_dict

/-- The number of trace elements taking the skip disposition (`continue`,
source line 137: directly allow-listed, not block-listed, and already
generated), computed by replaying only the dispositions and the tracker
state transitions of `_gen_schedule`, without building instructions. -/
def skip_count (g : ModuleGenerator) : List TraceElem → List Ctx → Nat
  | [], _ => 0
  | e :: rest, st =>
    match e.module_context_list.getLast? with
    | none => 0
    | some module =>
      let parent := parent_in_gen_allowlist g e
      let in_allow := is_module_in_gen_allowlist g module &&
        !(is_module_in_gen_blocklist g module)
      let dup := is_module_already_gen st module e
      let s := if in_allow && dup then 1 else 0
      let st' := if !dup && (parent.isSome || in_allow) then
          st ++ [(module, e.module_input_list, e.module_output)]
        else st
      s + skip_count g rest st'

/-- Walk a dotted path through the generated module tree. -/
def find_path : List Nat → ModTree → Option ModTree
  | [], t => some t
  | p :: ps, t =>
    match lookup_child t.sub p with
    | some sub => find_path ps sub
    | none => none

/-- No duplicate names in a children map. -/
def nodup_keys : List Nat → Bool
  | [] => true
  | k :: rest => !(rest.contains k) && nodup_keys rest

mutual

/-- Well-formedness of a module tree: at every node each submodule name is
bound at most once (no parallel duplicate chains). -/
def ModTree.wfB : ModTree → Bool
  | .node _ cs => nodup_keys (cs.map Prod.fst) && wf_children cs

/-- Well-formedness of a children map. -/
def wf_children : List (Nat × ModTree) → Bool
  | [] => true
  | (_, t) :: rest => t.wfB && wf_children rest

end

/-! ### Concrete fixtures for counterexamples and witnesses -/

/-- The fresh `CodegenModule()` output container of `gen_model`. -/
def gen_root : ModTree := .node ⟨0, [], []⟩ []

/-- A generic callable object for synthesized instructions in fixtures. -/
def fn_obj : Module := ⟨9, [], []⟩

/-- Fixture: an allow-listed ancestor (instance of class `5`). -/
def modA_C2 : Module := ⟨2, [], [5]⟩

/-- Fixture: the innermost enclosing module, not allow-listed. -/
def modI_C2 : Module := ⟨1, [], []⟩

/-- Fixture configuration: class `5` is allow-listed, nothing blocked. -/
def cfg_C2 : ModuleGenerator := ⟨[.cls 5], []⟩

/-- Fixture trace element: its context chain is `[modA_C2, modI_C2]`
(ancestor first, innermost last); its enclosing-module inputs and output
are the values `obj 10` and `obj 11`. -/
def elem_C2 : TraceElem :=
  { module_context_list := [modA_C2, modI_C2]
    module_input_list := [.obj 10]
    module_output := .obj 11
    prefix_list := [7]
    prefix_str := [7]
    fn := modI_C2
    module_fn_name := 0
    fn_type := .MODULE
    fn_args_index := []
    fn_kwargs_index := []
    fn_out_index := .idx 9 }

/-- Fixture trace for `elem_C2`: `obj 10` and `obj 11` have the references
`idx 0` and `idx 1`. -/
def trace_C2 : Trace :=
  { trace_elem_list := [elem_C2]
    index_map := fun _ => .pyNone
    index_from_val := fun v =>
      match v with
      | .obj 10 => .idx 0
      | .obj 11 => .idx 1
      | _ => .pyNone
    model_input_index_list := [.idx 0]
    model_output_index_list := [.idx 1] }

/-- Fixture schedule: one instruction consuming the single reference
`idx 0` and producing `idx 2`. -/
def sched_C3 : List Instruction :=
  [⟨.idx 2, fn_obj, .FUNCTION, [.leaf (.idx 0)], [], []⟩]

/-- Fixture trace whose index map resolves `idx 0` to a `Parameter`
object (a learnable value). -/
def trace_C3 : Trace :=
  { trace_elem_list := []
    index_map := fun v =>
      match v with
      | .idx 0 => .param 7 3
      | _ => .pyNone
    index_from_val := fun _ => .pyNone
    model_input_index_list := []
    model_output_index_list := [] }

/-- Fixture schedule for the unresolved-constant check: one instruction
consuming `idx 0`. -/
def sched_C4 : List Instruction :=
  [⟨.idx 2, fn_obj, .FUNCTION, [.leaf (.idx 0)], [], []⟩]

/-- Fixture trace whose index map resolves `idx 0` to Python `None` (the
reference has no underlying value). -/
def trace_C4 : Trace :=
  { trace_elem_list := []
    index_map := fun _ => .pyNone
    index_from_val := fun _ => .pyNone
    model_input_index_list := []
    model_output_index_list := [] }

/-- Fixture module for the deduplication defect. -/
def modM_C5 : Module := ⟨3, [], []⟩

/-- Fixture tracker state: one recorded context of `modM_C5` with input
list `[obj 1]` and output `obj 2`. -/
def st_C5 : List Ctx := [(modM_C5, [.obj 1], .obj 2)]

/-- Fixture trace element: same module and output as the recorded context
but a strictly longer input list `[obj 1, obj 3]`. -/
def elem_C5 : TraceElem :=
  { module_context_list := [modM_C5]
    module_input_list := [.obj 1, .obj 3]
    module_output := .obj 2
    prefix_list := [4]
    prefix_str := [4]
    fn := modM_C5
    module_fn_name := 0
    fn_type := .MODULE
    fn_args_index := []
    fn_kwargs_index := []
    fn_out_index := .idx 9 }

/-- Fixture configuration: class `5` allow-listed, nothing blocked. -/
def cfg_C7 : ModuleGenerator := ⟨[.cls 5], []⟩

/-- Fixture module, directly allow-listed (instance of class `5`). -/
def modM_C7 : Module := ⟨4, [], [5]⟩

/-- Fixture trace element enclosed directly by `modM_C7` (no eligible
ancestor). -/
def elem_C7 : TraceElem :=
  { module_context_list := [modM_C7]
    module_input_list := [.obj 20]
    module_output := .obj 21
    prefix_list := [3]
    prefix_str := [3]
    fn := modM_C7
    module_fn_name := 0
    fn_type := .MODULE
    fn_args_index := []
    fn_kwargs_index := []
    fn_out_index := .idx 9 }

/-- Fixture trace with the single element `elem_C7`. -/
def trace_C7 : Trace :=
  { trace_elem_list := [elem_C7]
    index_map := fun _ => .pyNone
    index_from_val := fun v =>
      match v with
      | .obj 20 => .idx 0
      | .obj 21 => .idx 1
      | _ => .pyNone
    model_input_index_list := [.idx 0]
    model_output_index_list := [.idx 1] }

/-- Fixture schedule for the resolution invariant: the first instruction
consumes the model input `idx 0` and the free reference `idx 1`; the
second consumes the earlier output `idx 2` positionally and `idx 1` as a
keyword argument. -/
def sched_C1 : List Instruction :=
  [⟨.idx 2, fn_obj, .FUNCTION, [.leaf (.idx 0), .leaf (.idx 1)], [], []⟩,
   ⟨.idx 3, fn_obj, .FUNCTION, [.leaf (.idx 2)], [(0, .leaf (.idx 1))], []⟩]

/-- Fixture trace for `sched_C1`: `idx 0` is the only model input and
`idx 1` resolves to a scalar tensor with payload `5`. -/
def trace_C1 : Trace :=
  { trace_elem_list := []
    index_map := fun v =>
      match v with
      | .idx 1 => .tensor 9 5
      | _ => .num 0
    index_from_val := fun _ => .pyNone
    model_input_index_list := [.idx 0]
    model_output_index_list := [.idx 3] }

/-! ### Shared helper lemmas -/

theorem contains_val_eq_true_iff (l : List PyVal) (v : PyVal) :
    contains_val l v = true ↔ v ∈ l := by
  induction l with
  | nil => simp [contains_val]
  | cons x xs ih =>
    simp only [contains_val]
    split
    · next h => subst h; simp
    · next h =>
      rw [ih, List.mem_cons]
      exact ⟨Or.inr, fun hv => hv.elim (fun he => absurd he.symm h) id⟩

theorem contains_val_eq_false_iff (l : List PyVal) (v : PyVal) :
    contains_val l v = false ↔ v ∉ l := by
  rw [← contains_val_eq_true_iff l v]
  cases contains_val l v <;> simp

theorem foldl_or_eq {α : Type} (f : α → Bool) :
    ∀ (l : List α) (b : Bool), l.foldl (fun acc x => acc || f x) b = (b || l.any f)
  | [], b => by simp
  | x :: xs, b => by
    simp only [List.foldl_cons, List.any_cons]
    rw [foldl_or_eq f xs (b || f x), Bool.or_assoc]

theorem foldl_or_false {α : Type} (f : α → Bool) (l : List α) (b : Bool)
    (hf : ∀ x ∈ l, f x = false) : l.foldl (fun acc x => acc || f x) b = b := by
  rw [foldl_or_eq]
  have h : l.any f = false := List.any_eq_false.mpr (fun x hx => by simp [hf x hx])
  rw [h, Bool.or_false]

theorem is_module_in_gen_list_eq_any (m : Module) (gl : List GenListEntry) :
    is_module_in_gen_list m gl = gl.any (matches_entry m) := by
  unfold is_module_in_gen_list
  rw [foldl_or_eq]
  simp

/-! ### C6: outermost eligible ancestor -/

theorem allowlist_inner_foldl (g : ModuleGenerator) (c : Module) :
    ∀ (gl : List GenListEntry) (o : Option Module),
    gl.foldl
        (fun output gma =>
          if matches_entry c gma && !(is_module_in_gen_blocklist g c) then some c else output)
        o =
      if gl.any (matches_entry c) && !(is_module_in_gen_blocklist g c) then some c else o
  | [], o => by simp
  | e :: gl, o => by
    simp only [List.foldl_cons, List.any_cons]
    rw [allowlist_inner_foldl g c gl]
    rcases Bool.eq_false_or_eq_true (is_module_in_gen_blocklist g c) with hb | hb <;>
      rcases Bool.eq_false_or_eq_true (matches_entry c e) with he | he <;>
        rcases Bool.eq_false_or_eq_true (gl.any (matches_entry c)) with ha | ha <;>
          simp [hb, he, ha]

theorem foldl_overwrite_eq_find (p : Module → Bool) :
    ∀ (l : List Module) (o : Option Module),
    l.foldl (fun output c => if p c then some c else output) o =
      ((l.reverse.find? p).or o)
  | [], o => by simp
  | c :: l, o => by
    simp only [List.foldl_cons, List.reverse_cons, List.find?_append]
    rw [foldl_overwrite_eq_find p l]
    cases h : l.reverse.find? p
    · simp only [Option.none_or]
      cases hc : p c <;> simp [List.find?, hc]
    · simp

/-- C6: `_parent_in_gen_allowlist` scans the context list excluding the
innermost module and returns the outermost ancestor that matches the
allowlist and does not match the blocklist (the overwrite loop makes a
more outward eligible match win, and an ineligible outer ancestor does not
erase an earlier eligible one); it returns `none` when no ancestor is
eligible.  Since the context list is ordered outermost first, this is
exactly the first eligible module of `module_context_list[:-1]`. -/
theorem C6_parent_is_outermost_eligible (g : ModuleGenerator) (trace_elem : TraceElem) :
    parent_in_gen_allowlist g trace_elem =
      (trace_elem.module_context_list.dropLast).find?
        (fun c => is_module_in_gen_allowlist g c && !(is_module_in_gen_blocklist g c)) := by
  unfold parent_in_gen_allowlist
  have hfun :
      (fun (output : Option Module) (c : Module) =>
        g.gen_module_allowlist.foldl
          (fun output gma =>
            if matches_entry c gma && !(is_module_in_gen_blocklist g c) then some c else output)
          output) =
      (fun (output : Option Module) (c : Module) =>
        if (is_module_in_gen_allowlist g c && !(is_module_in_gen_blocklist g c)) then some c
        else output) := by
    funext o c
    rw [allowlist_inner_foldl g c]
    rw [is_module_in_gen_allowlist, is_module_in_gen_list_eq_any]
  rw [hfun, foldl_overwrite_eq_find, List.reverse_reverse]
  cases h : (trace_elem.module_context_list.dropLast).find?
      (fun c => is_module_in_gen_allowlist g c && !(is_module_in_gen_blocklist g c)) <;> simp

/-! ### C10: the defensive parent-subtree check never holds -/

theorem py_is_module_ctx (c : Module) (m : Ctx) :
    py_is (.moduleObj c) (.ctxObj m) = false := by
  simp only [py_is]
  exact decide_eq_false (fun h => PyObj.noConfusion h)

/-- C10: the second loop of `_is_module_already_gen` compares each context
module by object identity against whole recorded `(module, input-list,
output)` tuples; a module is never the same object as a tuple, so the
check contributes nothing and the duplicate decision is exactly the simple
first-loop check. -/
theorem C10_already_gen_eq_simple (st : List Ctx) (module : Module) (trace_elem : TraceElem) :
    (trace_elem.module_context_list.foldl
        (fun acc c =>
          acc || st.foldl (fun acc2 m => acc2 || py_is (.moduleObj c) (.ctxObj m)) false)
        false = false) ∧
    is_module_already_gen st module trace_elem =
      is_module_already_gen_simple st module trace_elem := by
  have hinner : ∀ c : Module,
      st.foldl (fun acc2 m => acc2 || py_is (.moduleObj c) (.ctxObj m)) false = false := by
    intro c
    exact foldl_or_false _ st false (fun m _ => py_is_module_ctx c m)
  constructor
  · refine foldl_or_false _ _ false (fun c _ => hinner c)
  · unfold is_module_already_gen is_module_already_gen_simple
    refine foldl_or_false _ _ _ (fun c _ => hinner c)

/-! ### C5: deduplication and the truncating zip comparison -/

/-- C5 (code defect): the recorded context has input list `[obj 1]` while
the trace element's module input list is `[obj 1, obj 3]` — a different
input list — yet `_is_module_already_gen` classifies the element as
already generated, because `zip` truncates the comparison to the shorter
list.  This contradicts the source's own comment ("input and output have
to be the same, otherwise it's a different invokation of the same
module"): a second, independent module instruction should be emitted. -/
theorem C5_truncated_zip_defect :
    st_C5 = [(modM_C5, [.obj 1], .obj 2)] ∧
    elem_C5.module_input_list = [.obj 1, .obj 3] ∧
    ([PyVal.obj 1, PyVal.obj 3] ≠ [PyVal.obj 1]) ∧
    is_module_already_gen st_C5 modM_C5 elem_C5 = true := by
  refine ⟨rfl, rfl, ?_, rfl⟩
  decide

/-! ### C9: hierarchy attachment lemmas -/

theorem lookup_set_self : ∀ (cs : List (Nat × ModTree)) (n : Nat) (c : ModTree),
    lookup_child (set_child cs n c) n = some c
  | [], n, c => by simp [set_child, lookup_child]
  | (k, v) :: rest, n, c => by
    simp only [set_child]
    split
    · next h => simp [lookup_child]
    · next h => simp only [lookup_child, if_neg h]; exact lookup_set_self rest n c

theorem lookup_set_ne (k n : Nat) (hkn : k ≠ n) :
    ∀ (cs : List (Nat × ModTree)) (c : ModTree),
    lookup_child (set_child cs n c) k = lookup_child cs k
  | [], c => by
    have hnk : ¬n = k := fun h' => hkn h'.symm
    simp [set_child, lookup_child, hnk]
  | (k', v) :: rest, c => by
    simp only [set_child]
    split
    · next h =>
      subst h
      have hnk : ¬k' = k := fun h' => hkn h'.symm
      simp [lookup_child, hnk]
    · next h =>
      simp only [lookup_child]
      split
      · rfl
      · exact lookup_set_ne k n hkn rest c

theorem find_path_add_module : ∀ (pl : List Nat) (name : Nat) (l t : ModTree),
    find_path (pl ++ [name]) (add_module l name pl t) = some l
  | [], name, l, .node r cs => by
    simp only [add_module, List.nil_append, find_path, ModTree.sub]
    rw [lookup_set_self]
  | p :: ps, name, l, .node r cs => by
    simp only [add_module, List.cons_append]
    cases h : lookup_child cs p with
    | some sub =>
      simp only [find_path, ModTree.sub]
      rw [lookup_set_self]
      exact find_path_add_module ps name l sub
    | none =>
      simp only [find_path, ModTree.sub]
      rw [lookup_set_self]
      exact find_path_add_module ps name l _

theorem find_path_add_module_other (n1 n2 : Nat) (hne : n1 ≠ n2) :
    ∀ (pl : List Nat) (l2 t x : ModTree),
    find_path (pl ++ [n1]) t = some x →
    find_path (pl ++ [n1]) (add_module l2 n2 pl t) = some x
  | [], l2, .node r cs, x => by
    simp only [add_module, List.nil_append, find_path, ModTree.sub]
    rw [lookup_set_ne n1 n2 hne]
    exact fun h => h
  | p :: ps, l2, .node r cs, x => by
    simp only [add_module, List.cons_append, find_path, ModTree.sub]
    cases h : lookup_child cs p with
    | none => intro hfalse; exact absurd hfalse (by simp)
    | some sub =>
      intro hx
      simp only [ModTree.sub]
      rw [lookup_set_self]
      exact find_path_add_module_other n1 n2 hne ps l2 sub x hx

theorem contains_nat_iff : ∀ (l : List Nat) (a : Nat), l.contains a = true ↔ a ∈ l
  | [], a => by simp
  | x :: xs, a => by
    rw [List.contains_cons]
    simp [Bool.or_eq_true, beq_iff_eq, contains_nat_iff xs a, List.mem_cons]

theorem nodup_keys_iff : ∀ l : List Nat, nodup_keys l = true ↔ l.Nodup
  | [] => by simp [nodup_keys]
  | k :: rest => by
    simp only [nodup_keys, Bool.and_eq_true, Bool.not_eq_true', List.nodup_cons]
    rw [nodup_keys_iff rest]
    constructor
    · rintro ⟨h1, h2⟩
      refine ⟨fun hm => ?_, h2⟩
      rw [(contains_nat_iff rest k).mpr hm] at h1
      cases h1
    · rintro ⟨h1, h2⟩
      refine ⟨?_, h2⟩
      cases hc : rest.contains k
      · rfl
      · exact absurd ((contains_nat_iff rest k).mp hc) h1

theorem nodup_append_singleton (l : List Nat) (a : Nat) (hl : l.Nodup) (ha : a ∉ l) :
    (l ++ [a]).Nodup := by
  refine List.nodup_append.mpr ⟨hl, List.nodup_singleton a, fun x hx hxa => ?_⟩
  simp only [List.mem_singleton] at hxa
  exact ha (hxa ▸ hx)

theorem keys_set_child : ∀ (cs : List (Nat × ModTree)) (n : Nat) (c : ModTree),
    (set_child cs n c).map Prod.fst =
      if n ∈ cs.map Prod.fst then cs.map Prod.fst else cs.map Prod.fst ++ [n]
  | [], n, c => by simp [set_child]
  | (k, v) :: rest, n, c => by
    simp only [set_child]
    split
    · next h => subst h; simp
    · next h =>
      simp only [List.map_cons, keys_set_child rest n c, List.mem_cons]
      have hkn : ¬n = k := fun h' => h h'.symm
      split
      · next hm => rw [if_pos (Or.inr hm)]
      · next hm => rw [if_neg (fun hor => hor.elim hkn hm)]; simp

theorem lookup_child_eq_some_mem : ∀ (cs : List (Nat × ModTree)) (p : Nat) (sub : ModTree),
    lookup_child cs p = some sub → p ∈ cs.map Prod.fst
  | [], p, sub => by simp [lookup_child]
  | (k, v) :: rest, p, sub => by
    simp only [lookup_child]
    split
    · next h => subst h; simp
    · next h =>
      intro hl
      simp only [List.map_cons, List.mem_cons]
      exact Or.inr (lookup_child_eq_some_mem rest p sub hl)

theorem lookup_child_eq_none_not_mem : ∀ (cs : List (Nat × ModTree)) (p : Nat),
    lookup_child cs p = none → p ∉ cs.map Prod.fst
  | [], p => by simp
  | (k, v) :: rest, p => by
    simp only [lookup_child]
    split
    · next h => intro hl; exact absurd hl (by simp)
    · next h =>
      intro hl
      simp only [List.map_cons, List.mem_cons]
      rintro (h1 | h2)
      · exact h h1.symm
      · exact lookup_child_eq_none_not_mem rest p hl h2

theorem wf_children_set : ∀ (cs : List (Nat × ModTree)) (n : Nat) (c : ModTree),
    wf_children cs = true → c.wfB = true → wf_children (set_child cs n c) = true
  | [], n, c => by
    intro _ hc
    simp [set_child, wf_children, hc]
  | (k, v) :: rest, n, c => by
    intro hcs hc
    simp only [wf_children, Bool.and_eq_true] at hcs
    simp only [set_child]
    split
    · simp [wf_children, hc, hcs.2]
    · simp only [wf_children, Bool.and_eq_true]
      exact ⟨hcs.1, wf_children_set rest n c hcs.2 hc⟩

theorem wf_children_lookup : ∀ (cs : List (Nat × ModTree)) (p : Nat) (sub : ModTree),
    wf_children cs = true → lookup_child cs p = some sub → sub.wfB = true
  | [], p, sub => by simp [lookup_child]
  | (k, v) :: rest, p, sub => by
    intro hcs hl
    simp only [wf_children, Bool.and_eq_true] at hcs
    simp only [lookup_child] at hl
    split at hl
    · cases hl; exact hcs.1
    · exact wf_children_lookup rest p sub hcs.2 hl

theorem wf_add_module : ∀ (pl : List Nat) (l : ModTree) (n : Nat) (t : ModTree),
    t.wfB = true → l.wfB = true → (add_module l n pl t).wfB = true
  | [], l, n, .node r cs => by
    intro ht hl
    simp only [ModTree.wfB, Bool.and_eq_true] at ht
    simp only [add_module, ModTree.wfB, Bool.and_eq_true]
    rw [nodup_keys_iff] at ht
    constructor
    · rw [nodup_keys_iff, keys_set_child]
      split
      · exact ht.1
      · next hm => exact nodup_append_singleton _ n ht.1 hm
    · exact wf_children_set cs n l ht.2 hl
  | p :: ps, l, n, .node r cs => by
    intro ht hl
    simp only [ModTree.wfB, Bool.and_eq_true] at ht
    cases hlk : lookup_child cs p with
    | some sub =>
      simp only [add_module, hlk, ModTree.wfB, Bool.and_eq_true]
      rw [nodup_keys_iff] at ht
      constructor
      · rw [nodup_keys_iff, keys_set_child, if_pos (lookup_child_eq_some_mem cs p sub hlk)]
        exact ht.1
      · exact wf_children_set cs p _ ht.2
          (wf_add_module ps l n sub (wf_children_lookup cs p sub ht.2 hlk) hl)
    | none =>
      simp only [add_module, hlk, ModTree.wfB, Bool.and_eq_true]
      have hnm := lookup_child_eq_none_not_mem cs p hlk
      rw [nodup_keys_iff] at ht
      constructor
      · rw [nodup_keys_iff, keys_set_child, if_neg hnm]
        exact nodup_append_singleton _ p ht.1 hnm
      · exact wf_children_set cs p _ ht.2
          (wf_add_module ps l n (.node placeholder_module []) rfl hl)

/-- C9: hierarchy attachment shares prefixes.  Attaching two leaves under
the same multi-segment path into a well-formed tree descends through one
shared chain of intermediate containers — the result is still well-formed
(every name bound at most once at every node, so no parallel duplicate
chains exist) — and each leaf ends up attached under its own name at the
end of that chain. -/
theorem C9_shared_prefix_chain (root l1 l2 : ModTree) (pl : List Nat) (n1 n2 : Nat)
    (hwf : root.wfB = true) (h1 : l1.wfB = true) (h2 : l2.wfB = true) (hne : n1 ≠ n2) :
    find_path (pl ++ [n1]) (add_module l2 n2 pl (add_module l1 n1 pl root)) = some l1 ∧
    find_path (pl ++ [n2]) (add_module l2 n2 pl (add_module l1 n1 pl root)) = some l2 ∧
    (add_module l2 n2 pl (add_module l1 n1 pl root)).wfB = true := by
  refine ⟨?_, ?_, ?_⟩
  · exact find_path_add_module_other n1 n2 hne pl l2 _ l1 (find_path_add_module pl n1 l1 root)
  · exact find_path_add_module pl n2 l2 _
  · exact wf_add_module pl l2 n2 _ (wf_add_module pl l1 n1 root hwf h1) h2

/-- Witness for C9 at a concrete input: two sibling leaves attached under
the shared two-segment path `[1, 2]` into the fresh output container. -/
theorem C9_shared_prefix_chain_witness :
    (gen_root.wfB = true ∧ (3 : Nat) ≠ 4) ∧
    (find_path ([1, 2] ++ [3])
        (add_module (.node ⟨12, [], []⟩ []) 4 [1, 2]
          (add_module (.node ⟨11, [], []⟩ []) 3 [1, 2] gen_root)) =
      some (.node ⟨11, [], []⟩ []) ∧
    find_path ([1, 2] ++ [4])
        (add_module (.node ⟨12, [], []⟩ []) 4 [1, 2]
          (add_module (.node ⟨11, [], []⟩ []) 3 [1, 2] gen_root)) =
      some (.node ⟨12, [], []⟩ []) ∧
    (add_module (.node ⟨12, [], []⟩ []) 4 [1, 2]
        (add_module (.node ⟨11, [], []⟩ []) 3 [1, 2] gen_root)).wfB = true) :=
  ⟨⟨rfl, by decide⟩,
    C9_shared_prefix_chain gen_root (.node ⟨11, [], []⟩ []) (.node ⟨12, [], []⟩ [])
      [1, 2] 3 4 rfl rfl rfl (by decide)⟩

/-! ### C2: which input/output references an ancestor instruction carries -/

/-- C2 (counterexample): the context chain of `elem_C2` has the eligible
ancestor `modA_C2` above the inner module `modI_C2`; the emitted module
instruction does invoke the ancestor, but its positional input references
and its output reference are exactly the index-resolved enclosing-module
input list and output of the trace element itself — contradicting the
claim that they are the ancestor's declared ones and "not the inner
element's enclosing-module input list and output" (the trace element
carries no separate per-ancestor input/output data at all). -/
theorem C2_counterexample :
    ∃ st' tree' inst,
      gen_schedule_step cfg_C2 [] trace_C2 gen_root elem_C2 = .ok (st', tree', some inst) ∧
      parent_in_gen_allowlist cfg_C2 elem_C2 = some modA_C2 ∧
      modA_C2 ≠ modI_C2 ∧
      inst.fn = modA_C2 ∧
      inst.input_args_list =
        elem_C2.module_input_list.map (fun i => Arg.leaf (trace_C2.index_from_val i)) ∧
      inst.output_index = trace_C2.index_from_val elem_C2.module_output :=
  ⟨_, _, _, rfl, rfl, by decide, rfl, rfl, rfl⟩

/-- C2 (amended): when an eligible ancestor `p` is found and the context is
not a duplicate, the emitted module instruction invokes `p`, but its
positional inputs and output are the index-resolved
`trace_elem.module_input_list` and `trace_elem.module_output` — the
element's enclosing-module input list and output, identical to what the
direct-module branch would emit. -/
theorem C2_ancestor_instruction_uses_element_io
    (g : ModuleGenerator) (st : List Ctx) (trace : Trace) (tree : ModTree)
    (trace_elem : TraceElem) (module p : Module)
    (h_last : trace_elem.module_context_list.getLast? = some module)
    (h_par : parent_in_gen_allowlist g trace_elem = some p)
    (h_dup : is_module_already_gen st module trace_elem = false)
    (h_pl : trace_elem.prefix_list ≠ []) :
    ∃ tree', gen_schedule_step g st trace tree trace_elem =
      .ok (st ++ [(module, trace_elem.module_input_list, trace_elem.module_output)], tree',
        some ⟨trace.index_from_val trace_elem.module_output, p, .MODULE,
          trace_elem.module_input_list.map (fun i => Arg.leaf (trace.index_from_val i)),
          [], trace_elem.prefix_str⟩) := by
  cases hgl : trace_elem.prefix_list.getLast? with
  | none => exact absurd (List.getLast?_eq_none_iff.mp hgl) h_pl
  | some nm =>
    refine ⟨add_module (.node p []) nm trace_elem.prefix_list.dropLast tree, ?_⟩
    simp [gen_schedule_step, h_last, h_par, h_dup, module_instruction, hgl]

/-- Witness for the amended C2 at the concrete fixture. -/
theorem C2_ancestor_instruction_uses_element_io_witness :
    (elem_C2.module_context_list.getLast? = some modI_C2 ∧
      parent_in_gen_allowlist cfg_C2 elem_C2 = some modA_C2 ∧
      is_module_already_gen [] modI_C2 elem_C2 = false ∧
      elem_C2.prefix_list ≠ []) ∧
    (∃ tree', gen_schedule_step cfg_C2 [] trace_C2 gen_root elem_C2 =
      .ok ([] ++ [(modI_C2, elem_C2.module_input_list, elem_C2.module_output)], tree',
        some ⟨trace_C2.index_from_val elem_C2.module_output, modA_C2, .MODULE,
          elem_C2.module_input_list.map (fun i => Arg.leaf (trace_C2.index_from_val i)),
          [], elem_C2.prefix_str⟩)) :=
  ⟨⟨rfl, rfl, rfl, by decide⟩,
    C2_ancestor_instruction_uses_element_io cfg_C2 [] trace_C2 gen_root elem_C2
      modI_C2 modA_C2 rfl rfl rfl (by decide)⟩

/-! ### C7: tracker state persists across gen_model invocations -/

/-- C7 (counterexample): on a fresh generator the first `gen_model` call
emits one module instruction for the allow-listed `modM_C7`; a second call
on the same instance (carrying the state recorded by the first) classifies
the element as already generated and emits an empty schedule — the two
invocations are not independent. -/
theorem C7_counterexample :
    ∃ st1 m1 st2 m2,
      gen_model cfg_C7 [] trace_C7 = .ok (st1, m1) ∧
      gen_model cfg_C7 st1 trace_C7 = .ok (st2, m2) ∧
      m1.schedule ≠ m2.schedule := by
  refine ⟨_, _, _, _, rfl, rfl, fun h => ?_⟩
  exact absurd (congrArg List.length h) (by decide)

/-- C7 (amended): `gen_model` does not reset
`_generated_allowlist_modules`; if the carried state already records the
element's context, a directly allow-listed, non-blocked element is skipped
(no instruction, state and tree unchanged), so a second invocation on the
same generator instance can produce a different schedule than the first.
Independence holds only across fresh generator instances. -/
theorem C7_state_persistence_skip
    (g : ModuleGenerator) (st : List Ctx) (trace : Trace) (tree : ModTree)
    (trace_elem : TraceElem) (module : Module)
    (h_last : trace_elem.module_context_list.getLast? = some module)
    (h_allow : is_module_in_gen_allowlist g module = true)
    (h_block : is_module_in_gen_blocklist g module = false)
    (h_dup : is_module_already_gen st module trace_elem = true) :
    gen_schedule_step g st trace tree trace_elem = .ok (st, tree, none) := by
  simp [gen_schedule_step, h_last, h_allow, h_block, h_dup]

/-- Witness for the amended C7: the state recorded by the first call on
`trace_C7` makes the second encounter of `elem_C7` a skip. -/
theorem C7_state_persistence_skip_witness :
    (elem_C7.module_context_list.getLast? = some modM_C7 ∧
      is_module_in_gen_allowlist cfg_C7 modM_C7 = true ∧
      is_module_in_gen_blocklist cfg_C7 modM_C7 = false ∧
      is_module_already_gen [(modM_C7, [.obj 20], .obj 21)] modM_C7 elem_C7 = true) ∧
    gen_schedule_step cfg_C7 [(modM_C7, [.obj 20], .obj 21)] trace_C7 gen_root elem_C7 =
      .ok ([(modM_C7, [.obj 20], .obj 21)], gen_root, none) :=
  ⟨⟨rfl, rfl, rfl, rfl⟩,
    C7_state_persistence_skip cfg_C7 [(modM_C7, [.obj 20], .obj 21)] trace_C7 gen_root
      elem_C7 modM_C7 rfl rfl rfl rfl⟩

/-! ### C8: every non-skip element appends exactly one instruction -/

theorem gen_schedule_step_else (g : ModuleGenerator) (st : List Ctx) (trace : Trace)
    (tree : ModTree) (e : TraceElem) (module : Module) (nm : Nat)
    (h_last : e.module_context_list.getLast? = some module)
    (hgl : e.prefix_list.getLast? = some nm)
    (h_nb1 : ((parent_in_gen_allowlist g e).isSome &&
      !(is_module_already_gen st module e)) = false)
    (h_nb2 : (is_module_in_gen_allowlist g module &&
      !(is_module_in_gen_blocklist g module)) = false) :
    ∃ tree' inst, gen_schedule_step g st trace tree e = .ok (st, tree', some inst) := by
  cases hft : e.fn_type
  case MODULE =>
    refine ⟨add_module (.node e.fn []) e.module_fn_name e.prefix_list tree,
      torch_fn_instruction e, ?_⟩
    simp [gen_schedule_step, h_last, h_nb1, h_nb2, hft, module_fn_instruction]
  case FUNCTION =>
    refine ⟨tree, torch_fn_instruction e, ?_⟩
    simp [gen_schedule_step, h_last, h_nb1, h_nb2, hft]
  case METHOD =>
    refine ⟨tree, tensor_fn_instruction e trace, ?_⟩
    simp [gen_schedule_step, h_last, h_nb1, h_nb2, hft]
  case ATTRIBUTE =>
    refine ⟨tree, tensor_fn_instruction e trace, ?_⟩
    simp [gen_schedule_step, h_last, h_nb1, h_nb2, hft]
  case SCRIPTMODULE =>
    refine ⟨add_module (.node e.fn []) nm e.prefix_list.dropLast tree,
      ⟨trace.index_from_val e.module_output, e.fn, .MODULE,
        e.module_input_list.map (fun i => Arg.leaf (trace.index_from_val i)),
        [], e.prefix_str⟩, ?_⟩
    simp [gen_schedule_step, h_last, h_nb1, h_nb2, hft, module_instruction, hgl]

theorem gen_schedule_step_spec (g : ModuleGenerator) (st : List Ctx) (trace : Trace)
    (tree : ModTree) (e : TraceElem) (module : Module)
    (h_last : e.module_context_list.getLast? = some module)
    (h_pl : e.prefix_list ≠ []) :
    ∃ tree' oi, gen_schedule_step g st trace tree e =
        .ok ((if !(is_module_already_gen st module e) &&
                ((parent_in_gen_allowlist g e).isSome ||
                  (is_module_in_gen_allowlist g module &&
                    !(is_module_in_gen_blocklist g module)))
              then st ++ [(module, e.module_input_list, e.module_output)]
              else st), tree', oi) ∧
      oi.toList.length =
        (if (is_module_in_gen_allowlist g module && !(is_module_in_gen_blocklist g module)) &&
            is_module_already_gen st module e
         then 0 else 1) := by
  cases hgl : e.prefix_list.getLast? with
  | none => exact absurd (List.getLast?_eq_none_iff.mp hgl) h_pl
  | some nm =>
    rcases Bool.eq_false_or_eq_true (is_module_already_gen st module e) with hdup | hdup
    · -- the context is already generated: skip or primitive dispatch
      rcases Bool.eq_false_or_eq_true (is_module_in_gen_allowlist g module) with ha | ha <;>
        rcases Bool.eq_false_or_eq_true (is_module_in_gen_blocklist g module) with hb | hb
      case inl.inr =>
        -- allow-listed, not blocked, duplicate: skip
        have heq : gen_schedule_step g st trace tree e = .ok (st, tree, none) := by
          simp [gen_schedule_step, h_last, hdup, ha, hb]
        simp only [hdup, ha, hb, Bool.not_true, Bool.not_false, Bool.true_and,
          Bool.and_false, Bool.false_and, Bool.and_true, if_false, if_true]
        exact ⟨tree, none, heq, rfl⟩
      all_goals
        obtain ⟨tree', inst, heq⟩ := gen_schedule_step_else g st trace tree e module nm
          h_last hgl (by simp [hdup]) (by simp [ha, hb])
      all_goals
        simp only [hdup, ha, hb, Bool.not_true, Bool.not_false, Bool.true_and,
          Bool.and_false, Bool.false_and, Bool.and_true, if_false, if_true]
      all_goals exact ⟨tree', some inst, heq, rfl⟩
    · -- not yet generated
      cases hpar : parent_in_gen_allowlist g e with
      | some p =>
        have heq : gen_schedule_step g st trace tree e =
            .ok (st ++ [(module, e.module_input_list, e.module_output)],
              add_module (.node p []) nm e.prefix_list.dropLast tree,
              some ⟨trace.index_from_val e.module_output, p, .MODULE,
                e.module_input_list.map (fun i => Arg.leaf (trace.index_from_val i)),
                [], e.prefix_str⟩) := by
          simp [gen_schedule_step, h_last, hpar, hdup, module_instruction, hgl]
        simp only [hdup, hpar, Option.isSome_some, Bool.not_false, Bool.true_and,
          Bool.true_or, Bool.and_false, Bool.false_and, if_true, if_false]
        exact ⟨_, _, heq, rfl⟩
      | none =>
        rcases Bool.eq_false_or_eq_true (is_module_in_gen_allowlist g module) with ha | ha <;>
          rcases Bool.eq_false_or_eq_true (is_module_in_gen_blocklist g module) with hb | hb
        case inl.inr =>
          -- allow-listed, not blocked, fresh: direct module instruction
          have heq : gen_schedule_step g st trace tree e =
              .ok (st ++ [(module, e.module_input_list, e.module_output)],
                add_module (.node module []) nm e.prefix_list.dropLast tree,
                some ⟨trace.index_from_val e.module_output, module, .MODULE,
                  e.module_input_list.map (fun i => Arg.leaf (trace.index_from_val i)),
                  [], e.prefix_str⟩) := by
            simp [gen_schedule_step, h_last, hpar, hdup, ha, hb, module_instruction, hgl]
          simp only [hdup, hpar, ha, hb, Option.isSome_none, Bool.not_false, Bool.true_and,
            Bool.false_or, Bool.and_true, Bool.and_false, Bool.false_and, if_true, if_false]
          exact ⟨_, _, heq, rfl⟩
        all_goals
          obtain ⟨tree', inst, heq⟩ := gen_schedule_step_else g st trace tree e module nm
            h_last hgl (by simp [hpar]) (by simp [ha, hb])
        all_goals
          simp only [hdup, hpar, ha, hb, Option.isSome_none, Bool.not_false, Bool.not_true,
            Bool.true_and, Bool.false_or, Bool.and_true, Bool.and_false, Bool.false_and,
            Bool.true_or, if_true, if_false]
        all_goals exact ⟨tree', some inst, heq, rfl⟩

theorem gen_schedule_aux_spec (g : ModuleGenerator) (trace : Trace) :
    ∀ (elems : List TraceElem) (st : List Ctx) (tree : ModTree),
    (∀ e ∈ elems, e.module_context_list ≠ []) →
    (∀ e ∈ elems, e.prefix_list ≠ []) →
    ∃ st' tree' sched, gen_schedule_aux g trace elems st tree = .ok (st', tree', sched) ∧
      (∃ parts : List (List Instruction), sched = parts.flatten ∧
        parts.length = elems.length ∧ ∀ part ∈ parts, part.length ≤ 1) ∧
      sched.length + skip_count g elems st = elems.length
  | [], st, tree => fun _ _ =>
    ⟨st, tree, [], rfl, ⟨[], rfl, rfl, fun _ h => absurd h (List.not_mem_nil _)⟩, rfl⟩
  | e :: rest, st, tree => fun hctx hpl => by
    obtain ⟨module, h_last⟩ : ∃ m, e.module_context_list.getLast? = some m := by
      cases h : e.module_context_list.getLast? with
      | none => exact absurd (List.getLast?_eq_none_iff.mp h) (hctx e (List.mem_cons_self e rest))
      | some m => exact ⟨m, rfl⟩
    obtain ⟨tree', oi, heq, hlen⟩ := gen_schedule_step_spec g st trace tree e module h_last
      (hpl e (List.mem_cons_self e rest))
    obtain ⟨st'', tree'', sched, heq2, ⟨parts, hparts, hplen, hpone⟩, hlen2⟩ :=
      gen_schedule_aux_spec g trace rest
        (if !(is_module_already_gen st module e) &&
              ((parent_in_gen_allowlist g e).isSome ||
                (is_module_in_gen_allowlist g module && !(is_module_in_gen_blocklist g module)))
         then st ++ [(module, e.module_input_list, e.module_output)] else st) tree'
        (fun x hx => hctx x (List.mem_cons_of_mem e hx))
        (fun x hx => hpl x (List.mem_cons_of_mem e hx))
    refine ⟨st'', tree'', oi.toList ++ sched, ?_, ?_, ?_⟩
    · simp only [gen_schedule_aux, heq, heq2]
    · refine ⟨oi.toList :: parts, by simp [hparts], by simp [hplen], ?_⟩
      intro part hpart
      rcases List.mem_cons.mp hpart with h | h
      · subst h
        cases oi <;> simp
      · exact hpone part h
    · simp only [skip_count, h_last, List.length_append, List.length_cons]
      rcases Bool.eq_false_or_eq_true
          ((is_module_in_gen_allowlist g module && !(is_module_in_gen_blocklist g module)) &&
            is_module_already_gen st module e) with hb | hb
      · have hlen' : oi.toList.length = 0 := by simp [hlen, hb]
        simp only [if_pos hb]
        omega
      · have hlen' : oi.toList.length = 1 := by simp [hlen, hb]
        simp only [if_neg (by simp [hb] : ¬((is_module_in_gen_allowlist g module &&
            !(is_module_in_gen_blocklist g module)) &&
            is_module_already_gen st module e) = true)]
        omega

/-- C8: under the preconditions that every trace element has a nonempty
enclosing-module context and a nonempty name path, `_gen_schedule` never
fails (in particular the `assert inst is not None` cannot fire, because
the five supported call kinds are exhaustive), the schedule is the
in-order concatenation of one batch per trace element with each batch
holding at most one instruction, and the number of emitted instructions
plus the number of skip dispositions (directly allow-listed and already
generated) equals the number of trace elements — every non-skip element
appends exactly one instruction, a skipped element appends nothing. -/
theorem C8_one_instruction_per_nonskip_element (g : ModuleGenerator) (st : List Ctx)
    (trace : Trace) (tree : ModTree)
    (hctx : ∀ e ∈ trace.trace_elem_list, e.module_context_list ≠ [])
    (hpl : ∀ e ∈ trace.trace_elem_list, e.prefix_list ≠ []) :
    ∃ st' tree' sched, gen_schedule g st trace tree = .ok (st', tree', sched) ∧
      (∃ parts : List (List Instruction), sched = parts.flatten ∧
        parts.length = trace.trace_elem_list.length ∧ ∀ part ∈ parts, part.length ≤ 1) ∧
      sched.length + skip_count g trace.trace_elem_list st = trace.trace_elem_list.length :=
  gen_schedule_aux_spec g trace trace.trace_elem_list st tree hctx hpl

/-- Witness for C8 at the concrete one-element fixture trace. -/
theorem C8_one_instruction_per_nonskip_element_witness :
    ((∀ e ∈ trace_C7.trace_elem_list, e.module_context_list ≠ []) ∧
      (∀ e ∈ trace_C7.trace_elem_list, e.prefix_list ≠ [])) ∧
    (∃ st' tree' sched,
      gen_schedule cfg_C7 [] trace_C7 gen_root = .ok (st', tree', sched) ∧
      (∃ parts : List (List Instruction), sched = parts.flatten ∧
        parts.length = trace_C7.trace_elem_list.length ∧ ∀ part ∈ parts, part.length ≤ 1) ∧
      sched.length + skip_count cfg_C7 trace_C7.trace_elem_list [] =
        trace_C7.trace_elem_list.length) :=
  ⟨⟨by decide, by decide⟩,
    C8_one_instruction_per_nonskip_element cfg_C7 [] trace_C7 gen_root
      (by decide) (by decide)⟩

/-! ### C3 / C4: constant vs parameter partition and the unresolved check -/

theorem keys_of_scalarized (f : PyVal → PyVal) : ∀ l : List PyVal,
    ((l.map (fun c => (c, f c))).map
        (fun kv : PyVal × PyVal => (kv.1, if kv.2.isTensor then kv.2.item else kv.2))).map
      (fun kv : PyVal × PyVal => kv.1) = l
  | [] => rfl
  | x :: xs => by
    simp only [List.map_cons]
    rw [keys_of_scalarized f xs]

theorem keys_of_pairs (f : PyVal → PyVal) : ∀ l : List PyVal,
    (l.map (fun c => (c, f c))).map (fun kv : PyVal × PyVal => kv.1) = l
  | [] => rfl
  | x :: xs => by
    simp only [List.map_cons]
    rw [keys_of_pairs f xs]

theorem gcp_ok (sched : List Instruction) (trace : Trace)
    (consts params : List (PyVal × PyVal))
    (h : gen_constants_parameters sched trace = .ok (consts, params)) :
    consts = (((const_index_list sched trace).filter (fun c => !c.isParameter)).map
        (fun c => (c, trace.index_map c))).map
          (fun kv : PyVal × PyVal => (kv.1, if kv.2.isTensor then kv.2.item else kv.2)) ∧
    params = ((const_index_list sched trace).filter (fun c => c.isParameter)).map
        (fun c => (c, trace.index_map c)) := by
  simp only [gen_constants_parameters] at h
  split at h
  · exact absurd h (by simp)
  · cases h
    exact ⟨rfl, rfl⟩

/-- C3 (counterexample): the schedule consumes the single free reference
`idx 0`, whose underlying resolved value `trace_C3.index_map (idx 0)` is a
`Parameter` (a learnable value); yet `_gen_constants_parameters` places it
in `consts` (after `.item()`-scalarizing the parameter, since `Parameter`
is a `Tensor`) and leaves `params` empty, because the code tests
`isinstance(c, Parameter)` on the reference `c` itself, not on the
looked-up value. -/
theorem C3_counterexample :
    ∃ consts params,
      gen_constants_parameters sched_C3 trace_C3 = .ok (consts, params) ∧
      PyVal.idx 0 ∈ const_index_list sched_C3 trace_C3 ∧
      (trace_C3.index_map (PyVal.idx 0)).isParameter = true ∧
      ¬((PyVal.idx 0 ∈ params.map (fun kv : PyVal × PyVal => kv.1)) ↔
          (trace_C3.index_map (PyVal.idx 0)).isParameter = true) := by
  refine ⟨[(.idx 0, .num 3)], [], rfl, by decide, rfl, fun hiff => ?_⟩
  have := hiff.mpr rfl
  simp at this

/-- C3 (amended): a candidate free reference is placed in `params` iff the
reference object itself is a `Parameter`, and in `consts` otherwise (the
code does not consult the underlying value through the index map for this
test); no candidate lands in both or in neither. -/
theorem C3_partition_by_reference_kind (sched : List Instruction) (trace : Trace)
    (consts params : List (PyVal × PyVal))
    (h : gen_constants_parameters sched trace = .ok (consts, params)) :
    ∀ r ∈ const_index_list sched trace,
      (contains_val (params.map (fun kv : PyVal × PyVal => kv.1)) r = r.isParameter) ∧
      (contains_val (consts.map (fun kv : PyVal × PyVal => kv.1)) r = !r.isParameter) := by
  obtain ⟨hc, hp⟩ := gcp_ok sched trace consts params h
  have hkc : consts.map (fun kv : PyVal × PyVal => kv.1) =
      (const_index_list sched trace).filter (fun c => !c.isParameter) := by
    rw [hc, keys_of_scalarized]
  have hkp : params.map (fun kv : PyVal × PyVal => kv.1) =
      (const_index_list sched trace).filter (fun c => c.isParameter) := by
    rw [hp, keys_of_pairs]
  intro r hr
  constructor
  · rw [hkp]
    rcases Bool.eq_false_or_eq_true r.isParameter with hpar | hpar
    · rw [hpar]
      exact (contains_val_eq_true_iff _ _).mpr (List.mem_filter.mpr ⟨hr, hpar⟩)
    · rw [hpar]
      refine (contains_val_eq_false_iff _ _).mpr (fun hmem => ?_)
      have := (List.mem_filter.mp hmem).2
      rw [hpar] at this
      cases this
  · rw [hkc]
    rcases Bool.eq_false_or_eq_true r.isParameter with hpar | hpar
    · rw [hpar]
      refine (contains_val_eq_false_iff _ _).mpr (fun hmem => ?_)
      have := (List.mem_filter.mp hmem).2
      rw [hpar] at this
      cases this
    · rw [hpar]
      exact (contains_val_eq_true_iff _ _).mpr (List.mem_filter.mpr ⟨hr, by rw [hpar]; rfl⟩)

/-- Witness for the amended C3 at the concrete fixture. -/
theorem C3_partition_by_reference_kind_witness :
    (gen_constants_parameters sched_C3 trace_C3 = .ok ([(.idx 0, .num 3)], [])) ∧
    (∀ r ∈ const_index_list sched_C3 trace_C3,
      (contains_val (([] : List (PyVal × PyVal)).map (fun kv : PyVal × PyVal => kv.1)) r =
        r.isParameter) ∧
      (contains_val ([(PyVal.idx 0, PyVal.num 3)].map (fun kv : PyVal × PyVal => kv.1)) r =
        !r.isParameter)) :=
  ⟨rfl, C3_partition_by_reference_kind sched_C3 trace_C3 [(.idx 0, .num 3)] [] rfl⟩

/-- C4 (counterexample): the free reference `idx 0` resolves to Python
`None` through the index map — an entry of `consts` whose underlying
resolved value is "no value" — yet constant extraction succeeds, because
the source checks `None in consts.keys()`: it looks for `None` among the
reference keys, not among the resolved values. -/
theorem C4_counterexample :
    gen_constants_parameters sched_C4 trace_C4 = .ok ([(.idx 0, .pyNone)], []) ∧
    ¬((∃ err, gen_constants_parameters sched_C4 trace_C4 = .error err) ↔
        ∃ kv ∈ [(PyVal.idx 0, PyVal.pyNone)], kv.2 = PyVal.pyNone) := by
  refine ⟨rfl, fun hiff => ?_⟩
  obtain ⟨err, herr⟩ := hiff.mpr ⟨(.idx 0, .pyNone), by simp⟩
  rw [(rfl : gen_constants_parameters sched_C4 trace_C4 = .ok ([(.idx 0, .pyNone)], []))] at herr
  cases herr

/-- C4 (amended): constant extraction fails (with the fatal
`RuntimeError`) iff the `None` reference itself is among the keys of the
`consts` map, i.e. some consumed free non-`Parameter` argument is the
`None` object; when no such key exists, extraction succeeds and every
`consts` entry holds the index-resolved value with scalar tensor-like
values replaced by their plain numeric `.item()` value. -/
theorem C4_error_iff_none_key (sched : List Instruction) (trace : Trace) :
    ((∃ err, gen_constants_parameters sched trace = .error err) ↔
      PyVal.pyNone ∈ (const_index_list sched trace).filter (fun c => !c.isParameter)) ∧
    (∀ consts params, gen_constants_parameters sched trace = .ok (consts, params) →
      ∀ kv ∈ consts,
        kv.2 = (if (trace.index_map kv.1).isTensor then (trace.index_map kv.1).item
                else trace.index_map kv.1)) := by
  constructor
  · rcases Bool.eq_false_or_eq_true
        (contains_val ((const_index_list sched trace).filter (fun c => !c.isParameter))
          PyVal.pyNone) with hcv | hcv
    · have hgcp : gen_constants_parameters sched trace = .error .runtime_error := by
        simp only [gen_constants_parameters]
        rw [keys_of_scalarized, hcv]
        rfl
      exact ⟨fun _ => (contains_val_eq_true_iff _ _).mp hcv, fun _ => ⟨_, hgcp⟩⟩
    · have hgcp : gen_constants_parameters sched trace =
          .ok ((((const_index_list sched trace).filter (fun c => !c.isParameter)).map
              (fun c => (c, trace.index_map c))).map
                (fun kv : PyVal × PyVal => (kv.1, if kv.2.isTensor then kv.2.item else kv.2)),
            ((const_index_list sched trace).filter (fun c => c.isParameter)).map
              (fun c => (c, trace.index_map c))) := by
        simp only [gen_constants_parameters]
        rw [keys_of_scalarized, hcv]
        rfl
      constructor
      · rintro ⟨err, herr⟩
        rw [hgcp] at herr
        cases herr
      · intro hmem
        rw [(contains_val_eq_true_iff _ _).mpr hmem] at hcv
        cases hcv
  · intro consts params h kv hkv
    obtain ⟨hc, _⟩ := gcp_ok sched trace consts params h
    rw [hc] at hkv
    obtain ⟨kv', hkv', hkveq⟩ := List.mem_map.mp hkv
    obtain ⟨c, _, hceq⟩ := List.mem_map.mp hkv'
    subst hkveq
    subst hceq
    rfl

/-- Witness for the amended C4: at the concrete fixture the extraction
succeeds and the single `consts` entry carries the index-resolved value
(Python `None` here, which is not tensor-like and stays as is). -/
theorem C4_error_iff_none_key_witness :
    gen_constants_parameters sched_C4 trace_C4 = .ok ([(.idx 0, .pyNone)], []) ∧
    ((PyVal.idx 0, PyVal.pyNone).2 =
      (if (trace_C4.index_map (PyVal.idx 0)).isTensor then
        (trace_C4.index_map (PyVal.idx 0)).item
      else trace_C4.index_map (PyVal.idx 0))) :=
  ⟨rfl, (C4_error_iff_none_key sched_C4 trace_C4).2 [(.idx 0, .pyNone)] [] rfl
    (.idx 0, .pyNone) (by simp)⟩

/-! ### C1: the resolution invariant -/

theorem flatten_args_append : ∀ (l1 l2 : List Arg),
    flatten_args (l1 ++ l2) = flatten_args l1 ++ flatten_args l2
  | [], l2 => rfl
  | a :: l1, l2 => by
    show flatten_arg a ++ flatten_args (l1 ++ l2) =
      (flatten_arg a ++ flatten_args l1) ++ flatten_args l2
    rw [flatten_args_append l1 l2, List.append_assoc]

theorem flatten_kvs_append : ∀ (l1 l2 : List (Nat × Arg)),
    flatten_kvs (l1 ++ l2) = flatten_kvs l1 ++ flatten_kvs l2
  | [], l2 => rfl
  | (k, a) :: l1, l2 => by
    show flatten_arg a ++ flatten_kvs (l1 ++ l2) =
      (flatten_arg a ++ flatten_kvs l1) ++ flatten_kvs l2
    rw [flatten_kvs_append l1 l2, List.append_assoc]

theorem mem_flatten_args_of_mem {r : PyVal} : ∀ (ll : List (List Arg)) (l : List Arg),
    l ∈ ll → r ∈ flatten_args l → r ∈ flatten_args ll.flatten
  | [], l, hl, _ => absurd hl (List.not_mem_nil l)
  | l0 :: rest, l, hl, hr => by
    simp only [List.flatten_cons, flatten_args_append, List.mem_append]
    rcases List.mem_cons.mp hl with h | h
    · exact Or.inl (h ▸ hr)
    · exact Or.inr (mem_flatten_args_of_mem rest l h hr)

theorem mem_flatten_kvs_of_mem {r : PyVal} : ∀ (ll : List (List (Nat × Arg))) (l : List (Nat × Arg)),
    l ∈ ll → r ∈ flatten_kvs l → r ∈ flatten_kvs ll.flatten
  | [], l, hl, _ => absurd hl (List.not_mem_nil l)
  | l0 :: rest, l, hl, hr => by
    simp only [List.flatten_cons, flatten_kvs_append, List.mem_append]
    rcases List.mem_cons.mp hl with h | h
    · exact Or.inl (h ▸ hr)
    · exact Or.inr (mem_flatten_kvs_of_mem rest l h hr)

theorem mem_input_index_list {sched : List Instruction} {inst : Instruction}
    (hinst : inst ∈ sched) {r : PyVal} (hr : r ∈ inst_consumed inst) :
    r ∈ input_index_list sched := by
  unfold input_index_list
  rcases List.mem_append.mp hr with h | h
  · exact List.mem_append_left _
      (mem_flatten_args_of_mem _ inst.input_args_list
        (List.mem_map_of_mem (fun i => i.input_args_list) hinst) h)
  · exact List.mem_append_right _
      (mem_flatten_kvs_of_mem _ inst.input_kwargs_dict
        (List.mem_map_of_mem (fun i => i.input_kwargs_dict) hinst) h)

theorem mem_const_index_list {sched : List Instruction} {trace : Trace} {r : PyVal} :
    r ∈ const_index_list sched trace ↔
      r ∈ input_index_list sched ∧
      contains_val trace.model_input_index_list r = false ∧
      contains_val (sched.map (fun i => i.output_index)) r = false := by
  unfold const_index_list
  constructor
  · intro h
    obtain ⟨h1, h2⟩ := List.mem_filter.mp h
    obtain ⟨h3, h4⟩ := List.mem_filter.mp h1
    refine ⟨h3, ?_, ?_⟩
    · cases hcv : contains_val trace.model_input_index_list r
      · rfl
      · rw [hcv] at h4; cases h4
    · cases hcv : contains_val (sched.map (fun i => i.output_index)) r
      · rfl
      · rw [hcv] at h2; cases h2
  · rintro ⟨h1, h2, h3⟩
    exact List.mem_filter.mpr ⟨List.mem_filter.mpr ⟨h1, by rw [h2]; rfl⟩, by rw [h3]; rfl⟩

theorem assoc_lookup_eq_none_iff : ∀ (l : List (PyVal × PyVal)) (v : PyVal),
    assoc_lookup l v = none ↔ v ∉ l.map (fun kv : PyVal × PyVal => kv.1)
  | [], v => by simp [assoc_lookup]
  | (k, w) :: rest, v => by
    simp only [assoc_lookup, List.map_cons, List.mem_cons]
    split
    · next h =>
      subst h
      constructor
      · intro hfalse; cases hfalse
      · intro hno; exact absurd (Or.inl rfl) hno
    · next h =>
      rw [assoc_lookup_eq_none_iff rest v]
      constructor
      · intro hno
        rintro (h1 | h2)
        · exact h h1.symm
        · exact hno h2
      · intro hno h2
        exact hno (Or.inr h2)

theorem assoc_lookup_some_mem : ∀ (l : List (PyVal × PyVal)) (v w : PyVal),
    assoc_lookup l v = some w → (v, w) ∈ l
  | [], v, w => by simp [assoc_lookup]
  | (k, w') :: rest, v, w => by
    simp only [assoc_lookup]
    split
    · next h =>
      subst h
      intro hw
      cases hw
      exact List.mem_cons_self _ _
    · next h =>
      intro hw
      exact List.mem_cons_of_mem _ (assoc_lookup_some_mem rest v w hw)

theorem assoc_lookup_some_key_mem {l : List (PyVal × PyVal)} {v w : PyVal}
    (h : assoc_lookup l v = some w) : v ∈ l.map (fun kv : PyVal × PyVal => kv.1) := by
  cases hn : assoc_lookup l v with
  | none => rw [hn] at h; cases h
  | some w' =>
    by_contra hno
    rw [(assoc_lookup_eq_none_iff l v).mpr hno] at hn
    cases hn

theorem idx_not_param {r : PyVal} (h : r.isIndex = true) : r.isParameter = false := by
  cases r <;> simp_all [PyVal.isIndex, PyVal.isParameter]

mutual

theorem flatten_solve_arg (consts params : List (PyVal × PyVal)) :
    ∀ (a : Arg) (r : PyVal), r ∈ flatten_arg (solve_consts_params consts params a) →
      (∃ v, v ∈ flatten_arg a ∧ v.isIndex = true ∧ assoc_lookup consts v = some r) ∨
      (∃ v, v ∈ flatten_arg a ∧ v.isIndex = true ∧ assoc_lookup consts v = none ∧
        assoc_lookup params v = some r) ∨
      (r ∈ flatten_arg a ∧ (r.isIndex = true → assoc_lookup consts r = none ∧
        assoc_lookup params r = none))
  | .leaf v, r => by
    simp only [solve_consts_params]
    split
    · next hidx =>
      cases hlc : assoc_lookup consts v with
      | some w =>
        simp only [hlc, flatten_arg, List.mem_singleton]
        intro hr
        subst hr
        exact Or.inl ⟨v, rfl, hidx, hlc⟩
      | none =>
        cases hlp : assoc_lookup params v with
        | some w =>
          simp only [hlc, hlp, flatten_arg, List.mem_singleton]
          intro hr
          subst hr
          exact Or.inr (Or.inl ⟨v, rfl, hidx, hlc, hlp⟩)
        | none =>
          simp only [hlc, hlp, flatten_arg, List.mem_singleton]
          intro hr
          subst hr
          exact Or.inr (Or.inr ⟨rfl, fun _ => ⟨hlc, hlp⟩⟩)
    · next hidx =>
      simp only [flatten_arg, List.mem_singleton]
      intro hr
      subst hr
      refine Or.inr (Or.inr ⟨rfl, fun hi => ?_⟩)
      rw [hi] at hidx
      exact absurd rfl hidx
  | .listA as', r => by
    simp only [solve_consts_params, flatten_arg]
    exact flatten_solve_list consts params as' r
  | .tupleA as', r => by
    simp only [solve_consts_params, flatten_arg]
    exact flatten_solve_list consts params as' r
  | .dictA kvs, r => by
    simp only [solve_consts_params, flatten_arg]
    exact flatten_solve_kvs consts params kvs r

theorem flatten_solve_list (consts params : List (PyVal × PyVal)) :
    ∀ (l : List Arg) (r : PyVal), r ∈ flatten_args (solve_list consts params l) →
      (∃ v, v ∈ flatten_args l ∧ v.isIndex = true ∧ assoc_lookup consts v = some r) ∨
      (∃ v, v ∈ flatten_args l ∧ v.isIndex = true ∧ assoc_lookup consts v = none ∧
        assoc_lookup params v = some r) ∨
      (r ∈ flatten_args l ∧ (r.isIndex = true → assoc_lookup consts r = none ∧
        assoc_lookup params r = none))
  | [], r => by simp [solve_list, flatten_args]
  | a :: l, r => by
    simp only [solve_list, flatten_args, List.mem_append]
    rintro (h | h)
    · rcases flatten_solve_arg consts params a r h with h' | h' | h'
      · exact Or.inl ⟨h'.choose, Or.inl h'.choose_spec.1, h'.choose_spec.2⟩
      · exact Or.inr (Or.inl ⟨h'.choose, Or.inl h'.choose_spec.1, h'.choose_spec.2⟩)
      · exact Or.inr (Or.inr ⟨Or.inl h'.1, h'.2⟩)
    · rcases flatten_solve_list consts params l r h with h' | h' | h'
      · exact Or.inl ⟨h'.choose, Or.inr h'.choose_spec.1, h'.choose_spec.2⟩
      · exact Or.inr (Or.inl ⟨h'.choose, Or.inr h'.choose_spec.1, h'.choose_spec.2⟩)
      · exact Or.inr (Or.inr ⟨Or.inr h'.1, h'.2⟩)

theorem flatten_solve_kvs (consts params : List (PyVal × PyVal)) :
    ∀ (l : List (Nat × Arg)) (r : PyVal), r ∈ flatten_kvs (solve_kvs consts params l) →
      (∃ v, v ∈ flatten_kvs l ∧ v.isIndex = true ∧ assoc_lookup consts v = some r) ∨
      (∃ v, v ∈ flatten_kvs l ∧ v.isIndex = true ∧ assoc_lookup consts v = none ∧
        assoc_lookup params v = some r) ∨
      (r ∈ flatten_kvs l ∧ (r.isIndex = true → assoc_lookup consts r = none ∧
        assoc_lookup params r = none))
  | [], r => by simp [solve_kvs, flatten_kvs]
  | (k, a) :: l, r => by
    simp only [solve_kvs, flatten_kvs, List.mem_append]
    rintro (h | h)
    · rcases flatten_solve_arg consts params a r h with h' | h' | h'
      · exact Or.inl ⟨h'.choose, Or.inl h'.choose_spec.1, h'.choose_spec.2⟩
      · exact Or.inr (Or.inl ⟨h'.choose, Or.inl h'.choose_spec.1, h'.choose_spec.2⟩)
      · exact Or.inr (Or.inr ⟨Or.inl h'.1, h'.2⟩)
    · rcases flatten_solve_kvs consts params l r h with h' | h' | h'
      · exact Or.inl ⟨h'.choose, Or.inr h'.choose_spec.1, h'.choose_spec.2⟩
      · exact Or.inr (Or.inl ⟨h'.choose, Or.inr h'.choose_spec.1, h'.choose_spec.2⟩)
      · exact Or.inr (Or.inr ⟨Or.inr h'.1, h'.2⟩)

end

/-- C1: the resolution invariant.  Hypotheses: the resolver succeeded;
the trace is well formed in that no instruction output is also a
top-level model input, a reference consumed by instruction `k` that is
produced at all is produced by an instruction strictly before `k`
(defs-before-uses, guaranteed for traces recorded from an actual forward
execution), and resolved constant values are runtime values, never
references (the index map sends references to values).  Conclusion: (1)
every reference consumed as a positional or keyword argument of any
instruction of the raw schedule is in exactly one of the four classes
{produced by an earlier instruction, top-level model input, key of the
resolved `consts` map, key of the resolved `params` map}; and (2) after
`_apply_consts_params` rewrites the schedule, every reference still
present in any instruction's arguments is a model input or the output of
an earlier instruction — no argument reference is left unresolved. -/
theorem C1_resolution_invariant
    (sched : List Instruction) (trace : Trace) (consts params : List (PyVal × PyVal))
    (h_ok : gen_constants_parameters sched trace = .ok (consts, params))
    (h_io : ∀ r ∈ sched.map (fun i => i.output_index),
      contains_val trace.model_input_index_list r = false)
    (h_ord : ∀ k (hk : k < sched.length), ∀ r ∈ inst_consumed (sched.get ⟨k, hk⟩),
      contains_val (sched.map (fun i => i.output_index)) r = true →
      contains_val ((sched.take k).map (fun i => i.output_index)) r = true)
    (h_vals : ∀ kv ∈ consts, (kv : PyVal × PyVal).2.isIndex = false) :
    (∀ k (hk : k < sched.length), ∀ r ∈ inst_consumed (sched.get ⟨k, hk⟩), r.isIndex = true →
      (contains_val ((sched.take k).map (fun i => i.output_index)) r).toNat +
      (contains_val trace.model_input_index_list r).toNat +
      (contains_val (consts.map (fun kv : PyVal × PyVal => kv.1)) r).toNat +
      (contains_val (params.map (fun kv : PyVal × PyVal => kv.1)) r).toNat = 1) ∧
    (∀ k (hk : k < (apply_consts_params sched consts params).length),
      ∀ r ∈ inst_consumed ((apply_consts_params sched consts params).get ⟨k, hk⟩),
        r.isIndex = true →
        contains_val trace.model_input_index_list r = true ∨
        contains_val ((sched.take k).map (fun i => i.output_index)) r = true) := by
  have hkc : consts.map (fun kv : PyVal × PyVal => kv.1) =
      (const_index_list sched trace).filter (fun c => !c.isParameter) := by
    rw [(gcp_ok sched trace consts params h_ok).1, keys_of_scalarized]
  have hkp : params.map (fun kv : PyVal × PyVal => kv.1) =
      (const_index_list sched trace).filter (fun c => c.isParameter) := by
    rw [(gcp_ok sched trace consts params h_ok).2, keys_of_pairs]
  have hcsts : ∀ r : PyVal,
      contains_val (consts.map (fun kv : PyVal × PyVal => kv.1)) r = true ↔
      (r ∈ const_index_list sched trace ∧ r.isParameter = false) := by
    intro r
    rw [contains_val_eq_true_iff, hkc]
    constructor
    · intro h
      obtain ⟨h1, h2⟩ := List.mem_filter.mp h
      refine ⟨h1, ?_⟩
      cases hp : r.isParameter
      · rfl
      · rw [hp] at h2; cases h2
    · rintro ⟨h1, h2⟩
      exact List.mem_filter.mpr ⟨h1, by rw [h2]; rfl⟩
  have hprms : ∀ r : PyVal,
      contains_val (params.map (fun kv : PyVal × PyVal => kv.1)) r = true ↔
      (r ∈ const_index_list sched trace ∧ r.isParameter = true) := by
    intro r
    rw [contains_val_eq_true_iff, hkp]
    constructor
    · intro h
      obtain ⟨h1, h2⟩ := List.mem_filter.mp h
      exact ⟨h1, h2⟩
    · rintro ⟨h1, h2⟩
      exact List.mem_filter.mpr ⟨h1, h2⟩
  have htake_sub : ∀ (k : Nat) (r : PyVal),
      contains_val ((sched.take k).map (fun i => i.output_index)) r = true →
      contains_val (sched.map (fun i => i.output_index)) r = true := by
    intro k r h
    rw [contains_val_eq_true_iff] at h ⊢
    obtain ⟨i, hi, hieq⟩ := List.mem_map.mp h
    exact List.mem_map.mpr ⟨i, List.mem_of_mem_take hi, hieq⟩
  constructor
  · intro k hk r hr hidx
    have hin : r ∈ input_index_list sched :=
      mem_input_index_list (List.get_mem sched k hk) hr
    rcases Bool.eq_false_or_eq_true
        (contains_val (sched.map (fun i => i.output_index)) r) with hout | hout
    · -- produced by some instruction: by hypothesis, an earlier one
      have htake := h_ord k hk r hr hout
      have hinp : contains_val trace.model_input_index_list r = false :=
        h_io r ((contains_val_eq_true_iff _ _).mp hout)
      have hc : contains_val (consts.map (fun kv : PyVal × PyVal => kv.1)) r = false := by
        cases hcv : contains_val (consts.map (fun kv : PyVal × PyVal => kv.1)) r
        · rfl
        · obtain ⟨hcil, _⟩ := (hcsts r).mp hcv
          obtain ⟨_, _, ho⟩ := mem_const_index_list.mp hcil
          rw [ho] at hout; cases hout
      have hp : contains_val (params.map (fun kv : PyVal × PyVal => kv.1)) r = false := by
        cases hcv : contains_val (params.map (fun kv : PyVal × PyVal => kv.1)) r
        · rfl
        · obtain ⟨hcil, _⟩ := (hprms r).mp hcv
          obtain ⟨_, _, ho⟩ := mem_const_index_list.mp hcil
          rw [ho] at hout; cases hout
      rw [htake, hinp, hc, hp]
      rfl
    · -- never produced
      have htakef : contains_val ((sched.take k).map (fun i => i.output_index)) r = false := by
        cases hcv : contains_val ((sched.take k).map (fun i => i.output_index)) r
        · rfl
        · rw [htake_sub k r hcv] at hout; cases hout
      rcases Bool.eq_false_or_eq_true
          (contains_val trace.model_input_index_list r) with hinp | hinp
      · -- a top-level model input
        have hc : contains_val (consts.map (fun kv : PyVal × PyVal => kv.1)) r = false := by
          cases hcv : contains_val (consts.map (fun kv : PyVal × PyVal => kv.1)) r
          · rfl
          · obtain ⟨hcil, _⟩ := (hcsts r).mp hcv
            obtain ⟨_, hi, _⟩ := mem_const_index_list.mp hcil
            rw [hi] at hinp; cases hinp
        have hp : contains_val (params.map (fun kv : PyVal × PyVal => kv.1)) r = false := by
          cases hcv : contains_val (params.map (fun kv : PyVal × PyVal => kv.1)) r
          · rfl
          · obtain ⟨hcil, _⟩ := (hprms r).mp hcv
            obtain ⟨_, hi, _⟩ := mem_const_index_list.mp hcil
            rw [hi] at hinp; cases hinp
        rw [htakef, hinp, hc, hp]
        rfl
      · -- a candidate free reference: a consts key, never a params key
        have hcil : r ∈ const_index_list sched trace :=
          mem_const_index_list.mpr ⟨hin, hinp, hout⟩
        have hc : contains_val (consts.map (fun kv : PyVal × PyVal => kv.1)) r = true :=
          (hcsts r).mpr ⟨hcil, idx_not_param hidx⟩
        have hp : contains_val (params.map (fun kv : PyVal × PyVal => kv.1)) r = false := by
          cases hcv : contains_val (params.map (fun kv : PyVal × PyVal => kv.1)) r
          · rfl
          · obtain ⟨_, hpar⟩ := (hprms r).mp hcv
            rw [idx_not_param hidx] at hpar; cases hpar
        rw [htakef, hinp, hc, hp]
        rfl
  · intro k hk r hr hidx
    have hk' : k < sched.length := by
      simpa [apply_consts_params] using hk
    have hgot : (apply_consts_params sched consts params).get ⟨k, hk⟩ =
        { sched.get ⟨k, hk'⟩ with
          input_args_list := solve_list consts params (sched.get ⟨k, hk'⟩).input_args_list
          input_kwargs_dict :=
            solve_kvs consts params (sched.get ⟨k, hk'⟩).input_kwargs_dict } := by
      simp [apply_consts_params, List.get_eq_getElem]
    rw [hgot] at hr
    have hparam_keys : ∀ v : PyVal, v.isIndex = true → assoc_lookup params v = none := by
      intro v hv
      refine (assoc_lookup_eq_none_iff params v).mpr ?_
      rw [hkp]
      intro hmem
      have hpv := (List.mem_filter.mp hmem).2
      rw [idx_not_param hv] at hpv
      cases hpv
    have hfinish : r ∈ inst_consumed (sched.get ⟨k, hk'⟩) →
        (assoc_lookup consts r = none) →
        contains_val trace.model_input_index_list r = true ∨
        contains_val ((sched.take k).map (fun i => i.output_index)) r = true := by
      intro hmem_orig hlc
      have hnotc : r ∉ consts.map (fun kv : PyVal × PyVal => kv.1) :=
        (assoc_lookup_eq_none_iff _ _).mp hlc
      have hncil : r ∉ const_index_list sched trace := by
        intro hcil
        exact hnotc (by
          rw [hkc]
          exact List.mem_filter.mpr ⟨hcil, by rw [idx_not_param hidx]; rfl⟩)
      have hin2 : r ∈ input_index_list sched :=
        mem_input_index_list (List.get_mem sched k hk') hmem_orig
      rcases Bool.eq_false_or_eq_true
          (contains_val trace.model_input_index_list r) with hi | hi
      · exact Or.inl hi
      · rcases Bool.eq_false_or_eq_true
            (contains_val (sched.map (fun i => i.output_index)) r) with ho | ho
        · exact Or.inr (h_ord k hk' r hmem_orig ho)
        · exact absurd (mem_const_index_list.mpr ⟨hin2, hi, ho⟩) hncil
    rcases List.mem_append.mp hr with h | h
    · rcases flatten_solve_list consts params _ r h with h' | h' | h'
      · obtain ⟨v, _, _, hv3⟩ := h'
        have hiv := h_vals (v, r) (assoc_lookup_some_mem consts v r hv3)
        rw [hidx] at hiv
        cases hiv
      · obtain ⟨v, _, hv2, _, hv4⟩ := h'
        rw [hparam_keys v hv2] at hv4
        cases hv4
      · obtain ⟨hmem_orig, himpl⟩ := h'
        exact hfinish (List.mem_append_left _ hmem_orig) (himpl hidx).1
    · rcases flatten_solve_kvs consts params _ r h with h' | h' | h'
      · obtain ⟨v, _, _, hv3⟩ := h'
        have hiv := h_vals (v, r) (assoc_lookup_some_mem consts v r hv3)
        rw [hidx] at hiv
        cases hiv
      · obtain ⟨v, _, hv2, _, hv4⟩ := h'
        rw [hparam_keys v hv2] at hv4
        cases hv4
      · obtain ⟨hmem_orig, himpl⟩ := h'
        exact hfinish (List.mem_append_right _ hmem_orig) (himpl hidx).1

/-- Witness for C1 at the two-instruction fixture: `idx 0` is a model
input, `idx 1` is resolved as a scalar-tensor constant, `idx 2` is
produced by the first instruction and consumed by the second. -/
theorem C1_resolution_invariant_witness :
    (gen_constants_parameters sched_C1 trace_C1 =
        .ok ([(.idx 1, .num 5), (.idx 1, .num 5)], []) ∧
      (∀ r ∈ sched_C1.map (fun i => i.output_index),
        contains_val trace_C1.model_input_index_list r = false) ∧
      (∀ k (hk : k < sched_C1.length), ∀ r ∈ inst_consumed (sched_C1.get ⟨k, hk⟩),
        contains_val (sched_C1.map (fun i => i.output_index)) r = true →
        contains_val ((sched_C1.take k).map (fun i => i.output_index)) r = true) ∧
      (∀ kv ∈ [((.idx 1 : PyVal), (.num 5 : PyVal)), (.idx 1, .num 5)],
        (kv : PyVal × PyVal).2.isIndex = false)) ∧
    ((∀ k (hk : k < sched_C1.length), ∀ r ∈ inst_consumed (sched_C1.get ⟨k, hk⟩),
        r.isIndex = true →
      (contains_val ((sched_C1.take k).map (fun i => i.output_index)) r).toNat +
      (contains_val trace_C1.model_input_index_list r).toNat +
      (contains_val ([((.idx 1 : PyVal), (.num 5 : PyVal)), (.idx 1, .num 5)].map
        (fun kv : PyVal × PyVal => kv.1)) r).toNat +
      (contains_val (([] : List (PyVal × PyVal)).map (fun kv : PyVal × PyVal => kv.1)) r).toNat
        = 1) ∧
    (∀ k (hk : k <
        (apply_consts_params sched_C1 [(.idx 1, .num 5), (.idx 1, .num 5)] []).length),
      ∀ r ∈ inst_consumed
          ((apply_consts_params sched_C1 [(.idx 1, .num 5), (.idx 1, .num 5)] []).get ⟨k, hk⟩),
        r.isIndex = true →
        contains_val trace_C1.model_input_index_list r = true ∨
        contains_val ((sched_C1.take k).map (fun i => i.output_index)) r = true)) :=
  ⟨⟨rfl, by decide, by decide, by decide⟩,
    C1_resolution_invariant sched_C1 trace_C1
      [(.idx 1, .num 5), (.idx 1, .num 5)] [] rfl (by decide) (by decide) (by decide)⟩

end BrevitasGen
